import Mathlib

/-!
# cbox: selectors, the file-backed repository and the cloud controllers

A shallow embedding of the parts of `cbox` that deal with the addressing of
spaces (`repository_spaces.go`), tags (`logic_command.go`), the controllers
(`controller_cloud_spaces.go`, `cloud_controller.go`, `spaces_controller.go`)
and the console (`models_output.go`, `console_basic_io.go`).

Conventions of the embedding:

* a Go `string` is a Lean `String`; the structural separators the code looks
  for (`:`, `=`, `.`, `/`) are ASCII, so splitting on them is insensitive to
  the byte/code-point distinction;
* a pointer to a `Space` held by the command box is an index into the box;
* `log.Fatalf` ends a run: the run records the message and stops;
* interactive input (`console.Confirm`, `console.ReadString`) is an input of
  the run.
-/

namespace Cbox

/-! ## Data model -/

/-- Modelled from the spec: the `models.TypeNone` / `models.TypeUser` /
`models.TypeOrganization` constants are declared in the `models` package,
which is not part of the sources at hand. Section 3 of the spec gives the
enumeration `{None, User, Organization}`. -/
inductive NamespaceType where
  | TypeNone
  | TypeUser
  | TypeOrganization
  deriving DecidableEq, Repr

open NamespaceType

/-- Modelled from the spec: `models.Selector` is declared outside the sources
at hand; the fields are the ones the code reads and writes
(`NamespaceType`, `Namespace`, `Space`, `Item`). -/
structure Selector where
  NamespaceType : NamespaceType
  Namespace : String
  Space : String
  Item : String
  deriving DecidableEq, Repr

/-- Modelled from the spec: `models.Command` is declared outside the sources
at hand; the fields are the ones of section 3 of the spec and of the code
(`ID`, `Selector`, `Label`, `Description`, `URL`, `Code`, `Tags`, `CreatedAt`,
`UpdatedAt`). Times are Unix seconds. -/
structure Command where
  ID : String
  Selector : Selector
  Label : String
  Description : String
  URL : String
  Code : String
  Tags : List String
  CreatedAt : Nat
  UpdatedAt : Nat
  deriving DecidableEq, Repr

/-- Modelled from the spec: `models.Space` is declared outside the sources at
hand; the fields are the ones of section 3 of the spec and of the code. -/
structure Space where
  ID : String
  Selector : Selector
  Label : String
  Description : String
  Entries : List Command
  CreatedAt : Nat
  UpdatedAt : Nat
  deriving DecidableEq, Repr

/-! ## File names of spaces (`repository_spaces.go`) -/

/-- The constant `filenameSeparatorUser = ":"`, a one-character string. -/
def filenameSeparatorUser : Char := ':'

/-- The constant `filenameSeparatorOrganization = "="`, a one-character string. -/
def filenameSeparatorOrganization : Char := '='

/-- The constant `pathSpaces = "spaces"`. -/
def pathSpaces : String := "spaces"

/-- Lines 98-106 of `resolveSpaceFile`: the name of the file inside the
`spaces` directory. -/
def spaceFilename (namespaceType : NamespaceType) (namespace_ label : String) : String :=
  let filename :=
    if namespaceType ≠ TypeNone then
      let separator :=
        if namespaceType = TypeOrganization then filenameSeparatorOrganization
        else filenameSeparatorUser
      namespace_ ++ String.singleton separator ++ label
    else label
  filename ++ ".json"

/-- The function `resolveSpaceFile`: the file name handed to `repo.resolve`
together with `pathSpaces`. `repo.resolve` belongs to the `Repository` type,
which is not part of the sources at hand, and is a parameter. -/
def resolveSpaceFile (resolve : String → String → String)
    (namespaceType : NamespaceType) (namespace_ label : String) : String :=
  resolve pathSpaces (spaceFilename namespaceType namespace_ label)

/-- The scan of `filepath.Ext` over the reversed path: stop with no extension
at a path separator, stop with the suffix at the first dot met. -/
def extScan : List Char → List Char → List Char
  | [], _ => []
  | c :: rest, acc =>
    if c = '/' then []
    else if c = '.' then '.' :: acc
    else extScan rest (c :: acc)

/-- Go's `filepath.Ext`: the suffix beginning at the final dot of the final
element of the path, empty if there is no dot. -/
def filepathExt (path : String) : String := ⟨extScan path.data.reverse []⟩

/-- Go's `strings.Contains` for a one-character separator. -/
def stringsContains (s : String) (sep : Char) : Bool := decide (sep ∈ s.data)

/-- Go's `strings.Split` for a one-character separator. -/
def stringsSplit (s : String) (sep : Char) : List String :=
  (s.data.splitOn sep).map String.mk

/-- Lines 37-50 of `LoadSpaces`: how the label cut out of a file name is
decoded into the arguments of `spaceLoadFile`. `none` stands for the index
panic of `parts[1]`. -/
def decodeLabel (label : String) : Option (NamespaceType × String × String) :=
  if stringsContains label filenameSeparatorUser then
    match stringsSplit label filenameSeparatorUser with
    | p0 :: p1 :: _ => some (TypeUser, p0, p1)
    | _ => none
  else if stringsContains label filenameSeparatorOrganization then
    match stringsSplit label filenameSeparatorOrganization with
    | p0 :: p1 :: _ => some (TypeOrganization, p0, p1)
    | _ => none
  else some (TypeNone, "", label)

/-- The body of the loop of `LoadSpaces` for one directory entry: `none` when
the entry is skipped (its extension is not `.json`), otherwise the decoded
arguments of `spaceLoadFile`. -/
def loadSpacesEntry (filename : String) : Option (Option (NamespaceType × String × String)) :=
  let extension := filepathExt filename
  if extension = ".json" then
    let label : String := ⟨filename.data.take (filename.data.length - extension.data.length)⟩
    some (decodeLabel label)
  else none

/-- The allowed characters of labels and namespaces: `a-z`, `0-9`, `-`. -/
def validChar (c : Char) : Bool :=
  ('a' ≤ c && c ≤ 'z') || ('0' ≤ c && c ≤ '9') || c = '-'

/-- Line 39 of `LoadSpaces`: the file name without its extension. -/
def entryLabel (filename : String) : String :=
  ⟨filename.data.take (filename.data.length - (filepathExt filename).data.length)⟩

/-- Line 63 of `spaceLoadFile`: the path of the file that is read for the
decoded kind, namespace and label. -/
def spaceLoadFilePath (resolve : String → String → String) (namespaceType : NamespaceType)
    (namespace_ label : String) : String :=
  resolveSpaceFile resolve namespaceType namespace_ label

/-! ## Tags (`logic_command.go`) -/

/-- The loop of `TagAdd` and of `Tagged`: scan the tags for one equal to
`tag`, stop at the first. -/
def tagFound (tag : String) : List String → Bool
  | [] => false
  | t :: rest => if t = tag then true else tagFound tag rest

/-- The loop of `TagDelete`: the index of the first tag equal to `tag`,
counted from `i`; `none` is the code's `found = -1`. -/
def tagIndex (tag : String) : List String → Nat → Option Nat
  | [], _ => none
  | t :: rest, i => if t = tag then some i else tagIndex tag rest (i + 1)

/-- The method `Command.TagAdd`. Go's `strings.ToLower` and the clock reading
`UnixTimeNow()` are parameters. -/
def Command.TagAdd (toLower : String → String) (now : Nat) (command : Command)
    (tag : String) : Command :=
  if tag = "" then command
  else
    let tag := toLower tag
    let found := tagFound tag command.Tags
    if !found then { command with Tags := command.Tags ++ [tag], UpdatedAt := now }
    else command

/-- The method `Command.TagDelete`: `append(Tags[:found], Tags[found+1:]...)`
when the tag is found. The clock reading `UnixTimeNow()` is a parameter. -/
def Command.TagDelete (now : Nat) (command : Command) (tag : String) : Command :=
  if tag = "" then command
  else
    match tagIndex tag command.Tags 0 with
    | some found =>
      { command with
        Tags := command.Tags.take found ++ command.Tags.drop (found + 1), UpdatedAt := now }
    | none => command

/-- The method `Command.Tagged`. -/
def Command.Tagged (command : Command) (tag : String) : Bool :=
  tagFound tag command.Tags

/-- A lowering of ASCII letters only, used to run `TagAdd` on concrete tags. -/
def asciiToLower (s : String) : String := ⟨s.data.map Char.toLower⟩

/-- A command of space `scripts` with the given label and tags, for concrete
runs. -/
def sampleCommand (label : String) (tags : List String) : Command :=
  { ID := label ++ "@scripts"
    Selector := { NamespaceType := TypeNone, Namespace := "", Space := "scripts", Item := label }
    Label := label
    Description := ""
    URL := ""
    Code := "./" ++ label ++ ".sh"
    Tags := tags
    CreatedAt := 0
    UpdatedAt := 0 }

/-! ## The repository (`repository_spaces.go`) -/

/-- Modelled from the spec: `Selector.String` is declared outside the sources
at hand. Section 3: the canonical form is `item@namespace:space` (User),
`item@namespace/space` (Organization), `item@space` (no namespace), and the
`item@` part is left out when the selector denotes a space. -/
def Selector.String (s : Selector) : String :=
  let space :=
    match s.NamespaceType with
    | TypeNone => s.Space
    | TypeUser => s.Namespace ++ ":" ++ s.Space
    | TypeOrganization => s.Namespace ++ "/" ++ s.Space
  if s.Item = "" then space else s.Item ++ "@" ++ space

/-- Modelled from the spec: `Space.String` is declared outside the sources at
hand; section 3 says a space is shown by the canonical form of its selector. -/
def Space.String (space : Space) : String := space.Selector.String

/-- The directory of space files: the path of each file with the record that
was serialised into it. The JSON text itself is not modelled. -/
abbrev FileSystem := List (String × Space)

/-- Whether a file exists. -/
def FileSystem.fileExists (fs : FileSystem) (file : String) : Bool :=
  fs.any fun e => e.1 = file

/-- The record stored in a file, if the file exists. -/
def FileSystem.ReadFile (fs : FileSystem) (file : String) : Option Space :=
  (fs.find? fun e => e.1 = file).map Prod.snd

/-- The files other than `file`. -/
def FileSystem.without (fs : FileSystem) (file : String) : FileSystem :=
  fs.filter fun e => e.1 ≠ file

/-- Go's `ioutil.WriteFile`: create or replace the file. Write errors of the
operating system are outside the model. -/
def FileSystem.WriteFile (fs : FileSystem) (file : String) (raw : Space) : FileSystem :=
  (file, raw) :: fs.without file

/-- Go's `os.Remove`: an error when the file does not exist. -/
def FileSystem.Remove (fs : FileSystem) (file : String) : Except String FileSystem :=
  if fs.fileExists file then .ok (fs.without file)
  else .error ("remove " ++ file ++ ": no such file or directory")

/-- Lines 114-120 of `Persist`: what the loop does to one command. -/
def persistCommand (space : Space) (command : Command) : Command :=
  let selector : Selector :=
    { command.Selector with
      NamespaceType := space.Selector.NamespaceType
      Namespace := space.Selector.Namespace
      Space := space.Label }
  { command with Selector := selector, ID := selector.String }

/-- Lines 112-120 of `Persist`: the record after its `ID` and the selectors
and `ID`s of its commands have been rewritten in place. -/
def persistRewrite (space : Space) : Space :=
  let space := { space with ID := space.Selector.String }
  { space with Entries := space.Entries.map (persistCommand space) }

/-- Line 127 of `Persist`: the file the record is written to. -/
def persistFile (resolve : String → String → String) (space : Space) : String :=
  resolveSpaceFile resolve space.Selector.NamespaceType space.Selector.Namespace space.Label

/-- The method `Repository.Persist`: the record as it is left in memory, and
the file system after the write. -/
def Persist (resolve : String → String → String) (fs : FileSystem) (space : Space) :
    Space × FileSystem :=
  let space := persistRewrite space
  let file := persistFile resolve space
  (space, fs.WriteFile file space)

/-- Line 135 of `Delete`: the file that is removed. -/
def deleteFile (resolve : String → String → String) (selector : Selector) : String :=
  resolveSpaceFile resolve selector.NamespaceType selector.Namespace selector.Space

/-- The method `Repository.Delete`; the error is the `log.Fatalf`. -/
def Delete (resolve : String → String → String) (fs : FileSystem) (selector : Selector) :
    Except String FileSystem :=
  let file := deleteFile resolve selector
  match fs.Remove file with
  | .ok fs => .ok fs
  | .error err => .error ("repository: delete space '" ++ selector.String ++ "': " ++ err)

/-- A `repo.resolve` for concrete runs: the repository at `/cbox`. -/
def resolveAt (dir file : String) : String := "/cbox/" ++ dir ++ "/" ++ file

/-- A space for concrete runs: its selector addresses `scripts`, its label
is the given one, and it holds the given commands. -/
def sampleSpace (label : String) (entries : List Command) : Space :=
  { ID := "scripts"
    Selector := { NamespaceType := TypeNone, Namespace := "", Space := "scripts", Item := "" }
    Label := label
    Description := "old"
    Entries := entries
    CreatedAt := 10
    UpdatedAt := 20 }

/-! ## Runs of a controller action -/

/-- Modelled from the spec: `models.CommandBox` is declared outside the
sources at hand; section 3 makes it the collection of the spaces. The
controllers hold `*Space` pointers into it; here a pointer is an index into
`Spaces`. -/
structure CommandBox where
  Spaces : List Space
  deriving DecidableEq, Repr

/-- What a run does to the outside, in the order it happens: console output,
questions asked, calls of the remote service, calls of `Space.CommandAdd` with
the error they return, and storage steps. -/
inductive Event where
  | PrintAction (msg : String)
  | PrintSpace (header : String) (space : Space)
  | PrintCommandList (header : String) (commands : List Command)
  | PrintWarning (msg : String)
  | PrintError (msg : String)
  | PrintSuccess (msg : String)
  | Printf (msg : String)
  | LogPrintf (msg : String)
  | Confirm (question : String)
  | ReadString (label : String)
  | SpacePublish (space : Space)
  | CommandAdd (command : Command) (err : Option String)
  | WriteFile (file : String) (raw : Space)
  | Remove (file : String)
  deriving DecidableEq, Repr

/-- The state a run works on: the command box in memory, the files on disk,
and the events so far (oldest first). -/
structure World where
  cbox : CommandBox
  fs : FileSystem
  out : List Event
  deriving DecidableEq, Repr

/-- How a run ends: it returns, `log.Fatalf` ends the process, or it waits
for console input that never comes. -/
inductive Outcome where
  | returned
  | fatal (msg : String)
  | blocked
  deriving DecidableEq, Repr

/-- A finished run. -/
structure Run where
  world : World
  outcome : Outcome
  deriving DecidableEq, Repr

/-- Record an event. -/
def World.emit (w : World) (e : Event) : World := { w with out := w.out ++ [e] }

/-- The run ends by `log.Fatalf`. -/
def World.fatalf (w : World) (msg : String) : Run := ⟨w, .fatal msg⟩

/-- The run returns. -/
def World.done (w : World) : Run := ⟨w, .returned⟩

/-- Write through a `*Space` pointer. -/
def World.store (w : World) (ptr : Nat) (space : Space) : World :=
  { w with cbox := { w.cbox with Spaces := w.cbox.Spaces.set ptr space } }

/-- Read through a `*Space` pointer. -/
def World.load (w : World) (ptr : Nat) : Option Space := w.cbox.Spaces.get? ptr

/-- The first space of the box that satisfies a criterion: the pointer to it
and what it points at. -/
def findSpaceIndex (p : Space → Bool) : List Space → Option (Nat × Space)
  | [] => none
  | s :: rest =>
    if p s then some (0, s) else (findSpaceIndex p rest).map fun r => (r.1 + 1, r.2)

/-- The files on disk after the storage steps among the given events have
been replayed, in order, on `fs`. -/
def diskAfter (fs : FileSystem) : List Event → FileSystem
  | [] => fs
  | .WriteFile file raw :: rest => diskAfter (fs.WriteFile file raw) rest
  | .Remove file :: rest => diskAfter (fs.without file) rest
  | _ :: rest => diskAfter fs rest

/-- The storage steps among the events, each as the kind of step and the
file it touches. -/
def storageStepFiles : List Event → List (String × String)
  | [] => []
  | .WriteFile file _ :: rest => ("write", file) :: storageStepFiles rest
  | .Remove file :: rest => ("remove", file) :: storageStepFiles rest
  | _ :: rest => storageStepFiles rest

/-- Whether an event is a warning shown by `console.PrintWarning`. -/
def isWarning : Event → Bool
  | .PrintWarning _ => true
  | _ => false

/-- Whether a warning is among the events. -/
def warned (out : List Event) : Bool := out.any isWarning

/-- The storage steps among the events. -/
def storageSteps : List Event → List Event
  | [] => []
  | .WriteFile file raw :: rest => .WriteFile file raw :: storageSteps rest
  | .Remove file :: rest => .Remove file :: storageSteps rest
  | _ :: rest => storageSteps rest

/-- The method `Repository.Persist` run on the space behind a pointer: the
space in memory is rewritten, the file is written, the write is recorded. -/
def World.Persist (resolve : String → String → String) (w : World) (ptr : Nat) : World :=
  match w.load ptr with
  | none => w
  | some space =>
    let r := Cbox.Persist resolve w.fs space
    ({ w with fs := r.2 }.store ptr r.1).emit (.WriteFile (persistFile resolve r.1) r.1)

/-- The method `Repository.Delete` as a step of a run: the removal is
recorded, a failure is fatal. -/
def World.Delete (resolve : String → String → String) (w : World) (selector : Selector) :
    Except String World :=
  match Cbox.Delete resolve w.fs selector with
  | .ok fs => .ok ({ w with fs := fs }.emit (.Remove (deleteFile resolve selector)))
  | .error err => .error err

/-- The world once `file` has been removed and the removal recorded: what
`World.Delete` returns when the file exists. -/
def World.removed (w : World) (file : String) : World :=
  { w with fs := w.fs.without file }.emit (.Remove file)

/-- The loop of `Save`: `Persist` on the spaces behind the pointers
`ptr, ptr + 1, ...`, as many as `n`. -/
def saveFrom (resolve : String → String → String) : Nat → Nat → World → World
  | 0, _, w => w
  | n + 1, ptr, w => saveFrom resolve n (ptr + 1) (w.Persist resolve ptr)

/-- Modelled from the spec: `core.Save` is declared outside the sources at
hand. Section 4.3: `save()` persists every space via the repository, one after
the other (the loop `PersistCbox` of `repository_cbox.go` has the same shape). -/
def Save (resolve : String → String → String) (w : World) : World :=
  saveFrom resolve w.cbox.Spaces.length 0 w

/-! ## The cloud controller (`controller_cloud_spaces.go`) -/

/-- Modelled from the spec: the remote service behind `ctrl.cloud` is declared
outside the sources at hand. Section 4.4 lists its operations; each call is
synchronous and answers with a value or an error. `Login` is the login of the
caller. -/
structure Cloud where
  Login : String
  SpaceFind : Selector → Except String Space
  CommandList : Selector → Except String (List Command)
  SpacePublish : Space → Option String

namespace Controllers

/-- The collaborators of the controller of package `controllers` that are
declared outside the sources at hand, as parameters:
`models.ParseSelectorMandatorySpace`; the criterion by which `ctrl.findSpace`
picks the space a selector addresses; `Space.CommandList`;
`ctrl.cleanOldSpaceFile`, which works on the files; the remote service; and
`repo.resolve`. -/
structure CLIController where
  resolve : String → String → String
  ParseSelectorMandatorySpace : String → Except String Selector
  addresses : Selector → Space → Bool
  CommandList : Space → String → List Command
  cleanOldSpaceFile : FileSystem → Space → Selector → Except String FileSystem
  cloud : Cloud

/-- Modelled from the spec: `ctrl.findSpace` is declared outside the sources
at hand. Section 4.3: `findSpace(selector) -> Space | NotFoundError`; the
result is a pointer to the space held by the box. -/
def CLIController.findSpace (ctrl : CLIController) (cbox : CommandBox) (selector : Selector) :
    Except String (Nat × Space) :=
  match findSpaceIndex (ctrl.addresses selector) cbox.Spaces with
  | some r => .ok r
  | none => .error ("space " ++ selector.String ++ " not found")

/-- Lines 43-46 of `CloudSpacePublish`: a space without namespace gets the
user namespace of the caller. -/
def defaultNamespace (login : String) (space : Space) : Space :=
  if space.Selector.Namespace = "" then
    { space with Selector := { space.Selector with NamespaceType := TypeUser, Namespace := login } }
  else space

/-- Lines 50-53 of `CloudSpacePublish`: the organization override. -/
def overrideNamespace (OrganizationOption : String) (space : Space) : Space :=
  if OrganizationOption ≠ "" then
    { space with
      Selector :=
        { space.Selector with NamespaceType := TypeOrganization, Namespace := OrganizationOption } }
  else space

/-- Lines 68-70 of `CloudSpacePublish`: the warning, when its condition holds. -/
def publishWarning (OrganizationOption previousSpace : String) (space : Space) (w : World) :
    World :=
  if OrganizationOption ≠ "" ∧ previousSpace ≠ OrganizationOption then
    w.emit (.PrintWarning ("You're about to publish workspace '" ++ space.String
      ++ "' under a different organization '" ++ OrganizationOption ++ "'\n"))
  else w

/-- Lines 66-87 of `CloudSpacePublish`: the warning, the question, and the
publication with the storage steps that follow it. `space` is what the
pointer `ptr` points at. -/
def CLIController.publishConfirmed (ctrl : CLIController) (OrganizationOption : String)
    (SkipQuestionsFlag answer : Bool) (previousSpace : String) (selector : Selector)
    (space : Space) (w : World) : Run :=
  let w := publishWarning OrganizationOption previousSpace space w
  let w := if SkipQuestionsFlag then w else w.emit (.Confirm "Publish?")
  if SkipQuestionsFlag || answer then
    let w := w.emit (.Printf ("Publishing space '" ++ space.String ++ "'...\n"))
    let w := w.emit (.SpacePublish space)
    match ctrl.cloud.SpacePublish space with
    | some err => w.fatalf ("ctrl.cloud: publish space: " ++ err)
    | none =>
      match ctrl.cleanOldSpaceFile w.fs space selector with
      | .error err => w.fatalf err
      | .ok fs =>
        let w := Save ctrl.resolve { w with fs := fs }
        (w.emit (.PrintSuccess "Space published successfully!")).done
  else (w.emit (.PrintError "Publishing cancelled")).done

/-- The method `CLIController.CloudSpacePublish` of package `controllers`.
`OrganizationOption` and `SkipQuestionsFlag` are the package variables set from
the command line; `answer` is what the user replies if `console.Confirm` is
reached. Every assignment through the pointer `space` is written to the box. -/
def CLIController.CloudSpacePublish (ctrl : CLIController) (OrganizationOption : String)
    (SkipQuestionsFlag answer : Bool) (w : World) (arg : String) : Run :=
  let w := w.emit (.PrintAction "Publishing an space")
  match ctrl.ParseSelectorMandatorySpace arg with
  | .error err => w.fatalf ("ctrl.cloud: publish space: " ++ err)
  | .ok selector =>
    match ctrl.findSpace w.cbox selector with
    | .error err => w.fatalf ("ctrl.cloud: publish space: " ++ err)
    | .ok (ptr, space) =>
      let space := defaultNamespace ctrl.cloud.Login space
      let previousSpace := space.Selector.Namespace
      let space := overrideNamespace OrganizationOption space
      let w := w.store ptr space
      let w := w.emit (.PrintSpace "Space to publish" space)
      if selector.Item ≠ "" then
        let commands := ctrl.CommandList space selector.Item
        if commands.length = 0 then
          w.fatalf ("ctrl.cloud: no local commands matched selector: " ++ selector.String)
        else
          let space := { space with Entries := commands }
          let w := w.store ptr space
          ctrl.publishConfirmed OrganizationOption SkipQuestionsFlag answer previousSpace
            selector space w
      else
        ctrl.publishConfirmed OrganizationOption SkipQuestionsFlag answer previousSpace
          selector space w

/-- Lines 185-187 of `CloudSpacePull`: the three assignments to the local
space. The label is not among them. -/
def pullAssign (space spaceCloud : Space) (commands : List Command) : Space :=
  { space with
    Entries := commands
    UpdatedAt := spaceCloud.UpdatedAt
    Description := spaceCloud.Description }

/-- The method `CLIController.CloudSpacePull` of package `controllers`. -/
def CLIController.CloudSpacePull (ctrl : CLIController) (w : World) (arg : String) : Run :=
  let w := w.emit (.PrintAction "Pulling latest changes of an space")
  match ctrl.ParseSelectorMandatorySpace arg with
  | .error err => w.fatalf ("ctrl.cloud: pull space: invalid ctrl.cloud selector: " ++ err)
  | .ok selector =>
    match ctrl.findSpace w.cbox selector with
    | .error err => w.fatalf ("ctrl.cloud: pull space: " ++ err)
    | .ok (ptr, space) =>
      match ctrl.cloud.SpaceFind selector with
      | .error err => w.fatalf ("ctrl.cloud: pull space: " ++ err)
      | .ok spaceCloud =>
        match ctrl.cloud.CommandList selector with
        | .error err => w.fatalf ("ctrl.cloud: list commands: " ++ err)
        | .ok commands =>
          let space := pullAssign space spaceCloud commands
          let w := w.store ptr space
          let w := Save ctrl.resolve w
          let w :=
            match w.load ptr with
            | some space => w.emit (.PrintSpace "Pulled space" space)
            | none => w
          (w.emit (.PrintSuccess "Space pulled successfully!")).done

/-- Modelled from the spec: `ctrl.cleanOldSpaceFile` is declared outside the
sources at hand. Section 4.4 (publish): on success, delete any local file
left over from a prior label or namespace, that is, the file of the selector
the action was called with when the space is no longer written there. -/
def cleanOldSpaceFile (resolve : String → String → String) (fs : FileSystem) (space : Space)
    (selector : Selector) : Except String FileSystem :=
  if persistFile resolve space ≠ deleteFile resolve selector then Delete resolve fs selector
  else .ok fs

end Controllers

/-! ## The spaces controller (`spaces_controller.go`, `repository_cbox.go`) -/

namespace Cli

/-- The collaborators of the controller of package `cli` that are declared
outside the sources at hand, as parameters:
`models.ParseSelectorMandatorySpace`; the criterion by which `cbox.SpaceFind`
picks the space with a label; the check `cbox.SpaceEdit` makes of an edited
space against the box (an error or nil); Go's `strings.ToLower`; and
`repo.resolve`. -/
structure CLIController where
  resolve : String → String → String
  ParseSelectorMandatorySpace : String → Except String Selector
  labelled : String → Space → Bool
  SpaceEdit : CommandBox → Space → String → Option String
  toLower : String → String

/-- Modelled from the spec: `core.SpaceStore` is declared outside the sources
at hand. Section 4.2, `persist(space)`: the record is written to the file its
address names. It is handed a copy of the record, so the box is not touched. -/
def SpaceStore (resolve : String → String → String) (w : World) (space : Space) : World :=
  let r := Persist resolve w.fs space
  { w with fs := r.2 }.emit (.WriteFile (persistFile resolve r.1) r.1)

/-- Modelled from the spec: `core.SpaceDeleteFile` is declared outside the
sources at hand. Section 4.2, `delete`: the file the address of the record
names is removed, and it is fatal if the file does not exist. -/
def SpaceDeleteFile (resolve : String → String → String) (w : World) (space : Space) :
    Except String World :=
  w.Delete resolve
    { NamespaceType := space.Selector.NamespaceType
      Namespace := space.Selector.Namespace
      Space := space.Label
      Item := "" }

/-- The function `PersistCbox` of `repository_cbox.go`: `SpaceStore` on every
space of the box, in order. -/
def PersistCbox (resolve : String → String → String) (w : World) (cbox : CommandBox) : World :=
  cbox.Spaces.foldl (SpaceStore resolve) w

/-- The Go value `models.Space{Label: label}`: every other field is zero. -/
def spaceWithLabel (label : String) : Space :=
  { ID := ""
    Selector := { NamespaceType := TypeNone, Namespace := "", Space := "", Item := "" }
    Label := label
    Description := ""
    Entries := []
    CreatedAt := 0
    UpdatedAt := 0 }

/-- Lines 66-71 of `SpacesEdit`: `cbox.SpaceEdit` is tried until it accepts
the space; after each refusal a new label is read from the console.
`labels` are the lines the user types. The result is the world and the space
once accepted, or the world in which the run waits for input that never
comes. -/
def spaceEditRetry (ctrl : CLIController) (previousLabel : String) (ptr : Nat) :
    List String → World → Space → Except World (World × Space)
  | [], w, space =>
    match ctrl.SpaceEdit w.cbox space previousLabel with
    | none => .ok (w, space)
    | some _ =>
      .error ((w.emit (.PrintError "Label already found in your cbox. Try a different one")).emit
        (.ReadString "Label"))
  | line :: rest, w, space =>
    match ctrl.SpaceEdit w.cbox space previousLabel with
    | none => .ok (w, space)
    | some _ =>
      let w := w.emit (.PrintError "Label already found in your cbox. Try a different one")
      let w := w.emit (.ReadString "Label")
      let space := { space with Label := ctrl.toLower line }
      spaceEditRetry ctrl previousLabel ptr rest (w.store ptr space) space

/-- Lines 58-64 of `SpacesEdit`: the space is shown, edited in place through
the pointer, shown again, and the user is asked to confirm. -/
def spacesEditAsk (ConsoleEditSpace : Space → Space) (w : World) (ptr : Nat) (space : Space) :
    World :=
  let w := w.emit (.PrintSpace "Space to edit" space)
  let space := ConsoleEditSpace space
  let w := w.store ptr space
  let w := w.emit (.PrintSpace "Space after edition" space)
  w.emit (.Confirm "Update?")

/-- The method `CLIController.SpacesEdit` of package `cli`. `w.cbox` is the box
`core.LoadCbox` returns; `ConsoleEditSpace` is the edit the user makes through
`tools.ConsoleEditSpace`; `answer` is the reply to `console.Confirm`; `labels`
are the lines typed at the `Label` prompt. -/
def CLIController.SpacesEdit (ctrl : CLIController) (ConsoleEditSpace : Space → Space)
    (answer : Bool) (labels : List String) (w : World) (arg : String) : Run :=
  match ctrl.ParseSelectorMandatorySpace arg with
  | .error err => w.fatalf ("edit space: " ++ err)
  | .ok selector =>
    match findSpaceIndex (ctrl.labelled selector.Space) w.cbox.Spaces with
    | none => w.fatalf ("edit space: space " ++ selector.Space ++ " not found")
    | some (ptr, space) =>
      let w := spacesEditAsk ConsoleEditSpace w ptr space
      let space := ConsoleEditSpace space
      if answer then
        match spaceEditRetry ctrl selector.Space ptr labels w space with
        | .error w => ⟨w, .blocked⟩
        | .ok (w, space) =>
          let deleted :=
            if space.Label ≠ selector.Space then
              let spaceToDelete := spaceWithLabel selector.Space
              SpaceDeleteFile ctrl.resolve w spaceToDelete
            else .ok w
          match deleted with
          | .error err => w.fatalf err
          | .ok w =>
            let w := PersistCbox ctrl.resolve w w.cbox
            (w.emit (.PrintSuccess "Space updated successfully!")).done
      else (w.emit (.PrintError "Edition cancelled")).done

end Cli

/-! ## The cloud controller of package `cli` (`cloud_controller.go`) -/

namespace App

/-- The collaborators of the controller of `internal/app/cli` that are
declared outside the sources at hand, as parameters:
`models.ParseSelectorForCloudCommand`, `models.ParseSelectorMandatorySpace`,
the criterion by which `cboxInstance.SpaceFind` picks the space with a label,
`core.CloudClient`, `Space.CommandAdd` (an error, or the space with the
command added) and `repo.resolve`. -/
structure CLIController where
  resolve : String → String → String
  ParseSelectorForCloudCommand : String → Except String Selector
  ParseSelectorMandatorySpace : String → Except String Selector
  labelled : String → Space → Bool
  CloudClient : Except String Cloud
  CommandAdd : Space → Command → Except String Space

/-- Lines 244-251 of `CloudCommandCopy`: the loop over the commands. `space`
is what the pointer `ptr` points at, `failures` the flag so far. Every call
of `CommandAdd` is recorded with the error it returns. -/
def copyCommands (ctrl : CLIController) (ptr : Nat) :
    List Command → World → Space → Bool → World × Bool
  | [], w, _, failures => (w, failures)
  | command :: rest, w, space, failures =>
    match ctrl.CommandAdd space command with
    | .ok space =>
      copyCommands ctrl ptr rest ((w.store ptr space).emit (.CommandAdd command none)) space
        failures
    | .error err =>
      let failures := true
      let w := w.emit (.CommandAdd command (some err))
      let w := w.emit (.LogPrintf ("cloud: copy command: " ++ err))
      copyCommands ctrl ptr rest w space failures

/-- Lines 236-242 of `CloudCommandCopy`: the message when no command was
found, the list of the commands, and the question. -/
def copyAsk (cmdSelector spaceSelector : Selector) (commands : List Command) (w : World) :
    World :=
  let w :=
    if commands.length = 0 then
      w.emit (.PrintError ("Command '" ++ cmdSelector.String ++ "' not found"))
    else w
  let w := w.emit (.PrintCommandList "Commands to copy" commands)
  w.emit (.Confirm ("Copy these commands into " ++ spaceSelector.String ++ "?"))

/-- Lines 242-262 of `CloudCommandCopy`, once the question has been asked:
the loop, the save and the status. -/
def copyConfirmed (ctrl : CLIController) (answer : Bool) (ptr : Nat) (space : Space)
    (commands : List Command) (w : World) : Run :=
  if answer then
    let r := copyCommands ctrl ptr commands w space false
    let w := Save ctrl.resolve r.1
    if r.2 then (w.emit (.PrintError "Some commands could not be stored")).done
    else (w.emit (.PrintSuccess "Commands copied successfully!")).done
  else (w.emit (.PrintError "Copy cancelled")).done

/-- The method `CLIController.CloudCommandCopy` of `internal/app/cli`.
`answer` is the reply to `console.Confirm`. -/
def CLIController.CloudCommandCopy (ctrl : CLIController) (answer : Bool) (w : World)
    (arg0 arg1 : String) : Run :=
  let w := w.emit (.PrintAction "Copying cloud commands")
  match ctrl.ParseSelectorForCloudCommand arg0 with
  | .error err => w.fatalf ("cloud: copy command: invalid cloud selector: " ++ err)
  | .ok cmdSelector =>
    match ctrl.ParseSelectorMandatorySpace arg1 with
    | .error err => w.fatalf ("cloud: copy command: invalid space selector: " ++ err)
    | .ok spaceSelector =>
      match findSpaceIndex (ctrl.labelled spaceSelector.Space) w.cbox.Spaces with
      | none =>
        w.fatalf ("cloud: copy command: local space: space " ++ spaceSelector.Space
          ++ " not found")
      | some (ptr, space) =>
        match ctrl.CloudClient with
        | .error err => w.fatalf ("cloud: copy command: cloud client: " ++ err)
        | .ok cloud =>
          match cloud.CommandList cmdSelector with
          | .error err => w.fatalf ("cloud: copy command: retrieving matches: " ++ err)
          | .ok commands =>
            let w := copyAsk cmdSelector spaceSelector commands w
            copyConfirmed ctrl answer ptr space commands w

end App

/-- The calls of `CommandAdd` among the events: each command with the error
its call returned. -/
def attempts : List Event → List (Command × Option String)
  | [] => []
  | .CommandAdd command err :: rest => (command, err) :: attempts rest
  | _ :: rest => attempts rest

/-- Whether some call of `CommandAdd` among the events returned an error. -/
def someAttemptFailed (out : List Event) : Bool :=
  (attempts out).any fun a => a.2.isSome

/-- The batch copy as section 4.4 of the spec words it, to compare the loop of
`CloudCommandCopy` with: `CommandAdd` is tried on each command in list order,
on the space as the earlier successes have left it; a failure leaves the
space as it is and the batch goes on. The result is each command with the
error its `CommandAdd` returns, and the space at the end. -/
def addInOrder (CommandAdd : Space → Command → Except String Space) :
    Space → List Command → List (Command × Option String) × Space
  | space, [] => ([], space)
  | space, command :: rest =>
    match CommandAdd space command with
    | .ok added =>
      ((command, none) :: (addInOrder CommandAdd added rest).1,
        (addInOrder CommandAdd added rest).2)
    | .error err =>
      ((command, some err) :: (addInOrder CommandAdd space rest).1,
        (addInOrder CommandAdd space rest).2)

/-! ## Collaborators for concrete runs -/

/-- A selector parser for concrete runs: `item@space` or `space`, with no
namespace. -/
def parseLocal (text : String) : Except String Selector :=
  match text.data.splitOn '@' with
  | [space] => .ok { NamespaceType := TypeNone, Namespace := "", Space := ⟨space⟩, Item := "" }
  | [item, space] =>
    .ok { NamespaceType := TypeNone, Namespace := "", Space := ⟨space⟩, Item := ⟨item⟩ }
  | _ => .error "invalid selector"

/-- A `Space.CommandList` for concrete runs: the commands with the label. -/
def commandsLabelled (space : Space) (item : String) : List Command :=
  space.Entries.filter fun c => c.Label = item

/-- A remote service for concrete runs: the caller is `bob`, every space is
found with description `new` and update time `99`, the command list of every
selector is `commands`, and publishing succeeds. -/
def sampleCloud (commands : List Command) : Cloud :=
  { Login := "bob"
    SpaceFind := fun selector =>
      .ok { ID := selector.String, Selector := selector, Label := "theirs",
            Description := "new", Entries := [], CreatedAt := 1, UpdatedAt := 99 }
    CommandList := fun _ => .ok commands
    SpacePublish := fun _ => none }

/-- A controller of package `controllers` for concrete runs: spaces are found
by label, the repository is at `/cbox`. -/
def sampleController (commands : List Command) : Controllers.CLIController :=
  { resolve := resolveAt
    ParseSelectorMandatorySpace := parseLocal
    addresses := fun selector space => space.Label = selector.Space
    CommandList := commandsLabelled
    cleanOldSpaceFile := Controllers.cleanOldSpaceFile resolveAt
    cloud := sampleCloud commands }

/-- A controller of package `cli` for concrete runs: spaces are found by
label, an edit is refused when another space already has the label. -/
def sampleCli : Cli.CLIController :=
  { resolve := resolveAt
    ParseSelectorMandatorySpace := parseLocal
    labelled := fun label space => space.Label = label
    SpaceEdit := fun cbox space _ =>
      if (cbox.Spaces.filter fun s => s.Label = space.Label).length > 1 then
        some "label already exists"
      else none
    toLower := asciiToLower }

/-- A world for concrete runs: the box holds the given spaces, and each is on
disk as `Persist` writes it. -/
def sampleWorld (spaces : List Space) : World :=
  { cbox := { Spaces := spaces }
    fs := spaces.foldl (fun fs space => (Persist resolveAt fs space).2) []
    out := [] }

/-! ## Console output (`models_output.go`) -/

namespace Console

/-- The colouring functions of package `tty` that `selector` uses, through the
package variables `labelColor`, `atSeparatorColor`, `namespaceColorUser`,
`namespaceColorOrganization`, `namespaceSeparatorColor` and `spaceColor`.
Package `tty` is not part of the sources at hand, so they are parameters:
each wraps a text in colour codes. -/
structure Palette where
  labelColor : String → String
  atSeparatorColor : String → String
  namespaceColorUser : String → String
  namespaceColorOrganization : String → String
  namespaceSeparatorColor : String → String
  spaceColor : String → String

/-- The palette without colour codes: every colouring function gives back
the text. -/
def plain : Palette :=
  { labelColor := id
    atSeparatorColor := id
    namespaceColorUser := id
    namespaceColorOrganization := id
    namespaceSeparatorColor := id
    spaceColor := id }

/-- The function `selector` of package `console`. The format it builds holds
one `%s` per part and nothing else, so `fmt.Sprintf(format, parts...)` is the
concatenation of the parts. -/
def selector (palette : Palette) (selector : Selector) : String :=
  let parts : List String := []
  let parts :=
    if selector.Item ≠ "" then parts ++ [palette.labelColor selector.Item] else parts
  let parts :=
    if selector.Space ≠ "" then
      let parts := parts ++ [palette.atSeparatorColor "@"]
      if selector.NamespaceType = TypeNone then
        parts ++ [palette.spaceColor selector.Space]
      else if selector.NamespaceType = TypeUser then
        parts ++ [palette.namespaceColorUser selector.Namespace,
          palette.namespaceSeparatorColor ":", palette.spaceColor selector.Space]
      else
        parts ++ [palette.namespaceColorOrganization selector.Namespace,
          palette.namespaceSeparatorColor "/", palette.spaceColor selector.Space]
    else parts
  parts.foldl (· ++ ·) ""

end Console

/-! ## Input checks (`console_basic_io.go`) -/

/-- The part of the syntax of Go's package `regexp` that the pattern of
`CheckValidChars` uses: `^`, `$` (without the `m` flag: start and end of the
text), a character class given by its ranges, `*` and concatenation. -/
inductive Regexp where
  | beginText
  | endText
  | charClass (ranges : List (Char × Char))
  | star (r : Regexp)
  | concat (r s : Regexp)

/-- Whether a character lies in one of the ranges of a class. -/
def inRanges (ranges : List (Char × Char)) (c : Char) : Bool :=
  ranges.any fun r => decide (r.1 ≤ c) && decide (c ≤ r.2)

/-- The positions reached from `ps` by zero up to `n` rounds of `f`. -/
def starIter (f : List Nat → List Nat) : Nat → List Nat → List Nat
  | 0, ps => ps
  | n + 1, ps => ps ++ starIter f n (f ps)

/-- The positions of `text` at which a match of the expression can end when
it starts at one of the positions `ps`. A starred expression is tried for as
many rounds as the text is long. -/
def Regexp.ends (text : List Char) : Regexp → List Nat → List Nat
  | .beginText, ps => ps.filter fun p => p = 0
  | .endText, ps => ps.filter fun p => p = text.length
  | .charClass ranges, ps =>
    ps.filterMap fun p =>
      match text[p]? with
      | some c => if inRanges ranges c then some (p + 1) else none
      | none => none
  | .star r, ps => starIter (fun qs => r.ends text qs) text.length ps
  | .concat r s, ps => s.ends text (r.ends text ps)

/-- Go's `Regexp.MatchString`: whether the text holds a match, starting at
any position. -/
def Regexp.MatchString (re : Regexp) (s : String) : Bool :=
  (List.range (s.data.length + 1)).any fun i => !(re.ends s.data [i]).isEmpty

/-- The compiled pattern `^[a-z0-9-]*$` of `CheckValidChars`: the class holds
the ranges `a-z` and `0-9` and the hyphen. The pattern compiles, so the
`log.Fatalf` of the function is never reached. -/
def validCharsRegexp : Regexp :=
  .concat .beginText
    (.concat (.star (.charClass [('a', 'z'), ('0', '9'), ('-', '-')])) .endText)

/-- The function `CheckValidChars`. -/
def CheckValidChars (str : String) : Bool := validCharsRegexp.MatchString str

/-- A `Space.CommandAdd` for concrete runs: an error when the space already
holds a command with the label, the command appended otherwise. -/
def commandAddUnique (space : Space) (command : Command) : Except String Space :=
  if space.Entries.any (fun c => c.Label = command.Label) then
    .error ("command " ++ command.Label ++ " already exists")
  else .ok { space with Entries := space.Entries ++ [command] }

/-- A controller of `internal/app/cli` for concrete runs: the remote command
list of every selector is `commands`. -/
def sampleApp (commands : List Command) : App.CLIController :=
  { resolve := resolveAt
    ParseSelectorForCloudCommand := parseLocal
    ParseSelectorMandatorySpace := parseLocal
    labelled := fun label space => space.Label = label
    CloudClient := .ok (sampleCloud commands)
    CommandAdd := commandAddUnique }

/-! ## Theorems -/

/-! ### File names -/

theorem validChar_ne_colon {c : Char} (h : validChar c = true) : c ≠ ':' := by
  rintro rfl; revert h; decide

theorem validChar_ne_equals {c : Char} (h : validChar c = true) : c ≠ '=' := by
  rintro rfl; revert h; decide

theorem extScan_json (xs : List Char) :
    extScan (xs ++ ".json".data).reverse [] = ".json".data := by
  have : (xs ++ ".json".data).reverse = 'n' :: 'o' :: 's' :: 'j' :: '.' :: xs.reverse := by
    simp
  rw [this]
  simp [extScan]

theorem filepathExt_json (s : String) : filepathExt (s ++ ".json") = ".json" := by
  apply String.ext
  show extScan (s ++ ".json").data.reverse [] = ".json".data
  rw [String.data_append, extScan_json]

theorem loadSpacesEntry_json (s : String) :
    loadSpacesEntry (s ++ ".json") = some (decodeLabel s) := by
  unfold loadSpacesEntry
  simp only [filepathExt_json, if_true]
  congr 2
  apply String.ext
  simp [String.data_append]

theorem splitOn_sep (sep : Char) (xs ys : List Char) (hx : sep ∉ xs) (hy : sep ∉ ys) :
    (xs ++ sep :: ys).splitOn sep = [xs, ys] := by
  unfold List.splitOn
  rw [List.splitOnP_first _ _ (by intro x hx1; simp; rintro rfl; exact hx hx1) sep (by simp),
    List.splitOnP_eq_single _ _ (by intro x hx1; simp; rintro rfl; exact hy hx1)]

theorem decodeLabel_none (l : String) (h1 : ':' ∉ l.data) (h2 : '=' ∉ l.data) :
    decodeLabel l = some (TypeNone, "", l) := by
  simp [decodeLabel, stringsContains, filenameSeparatorUser, filenameSeparatorOrganization,
    h1, h2]

theorem decodeLabel_user (ns l : String) (h1 : ':' ∉ ns.data) (h2 : ':' ∉ l.data) :
    decodeLabel (ns ++ String.singleton filenameSeparatorUser ++ l) = some (TypeUser, ns, l) := by
  have hd : (ns ++ String.singleton filenameSeparatorUser ++ l).data = ns.data ++ ':' :: l.data := by
    simp [String.data_append, String.singleton, filenameSeparatorUser]
  have hs : stringsSplit (ns ++ String.singleton filenameSeparatorUser ++ l) filenameSeparatorUser
      = [ns, l] := by
    unfold stringsSplit
    rw [hd]
    show List.map String.mk ((ns.data ++ ':' :: l.data).splitOn ':') = [ns, l]
    rw [splitOn_sep _ _ _ h1 h2]
    rfl
  have hc : stringsContains (ns ++ String.singleton filenameSeparatorUser ++ l)
      filenameSeparatorUser = true := by
    simp [stringsContains, hd, filenameSeparatorUser]
  simp only [decodeLabel, hc, hs, if_true]

theorem decodeLabel_organization (ns l : String) (h1 : ':' ∉ ns.data) (h2 : ':' ∉ l.data)
    (h3 : '=' ∉ ns.data) (h4 : '=' ∉ l.data) :
    decodeLabel (ns ++ String.singleton filenameSeparatorOrganization ++ l)
      = some (TypeOrganization, ns, l) := by
  have hd : (ns ++ String.singleton filenameSeparatorOrganization ++ l).data
      = ns.data ++ '=' :: l.data := by
    simp [String.data_append, String.singleton, filenameSeparatorOrganization]
  have hs : stringsSplit (ns ++ String.singleton filenameSeparatorOrganization ++ l)
      filenameSeparatorOrganization = [ns, l] := by
    unfold stringsSplit
    rw [hd]
    show List.map String.mk ((ns.data ++ '=' :: l.data).splitOn '=') = [ns, l]
    rw [splitOn_sep _ _ _ h3 h4]
    rfl
  have hc : stringsContains (ns ++ String.singleton filenameSeparatorOrganization ++ l)
      filenameSeparatorOrganization = true := by
    simp [stringsContains, hd, filenameSeparatorOrganization]
  have hn : stringsContains (ns ++ String.singleton filenameSeparatorOrganization ++ l)
      filenameSeparatorUser = false := by
    simp [stringsContains, hd, filenameSeparatorUser, h1, h2]
  simp only [decodeLabel, hc, hs, hn, if_true]
  simp

/-- C1. Filename round-trip: for every namespace kind `k` and every namespace
`ns` and label `l` made only of lowercase letters, digits and hyphens, with
`ns` empty when `k` is `TypeNone`, decoding the file name
`resolveSpaceFile` computes for `(k, ns, l)` the way `LoadSpaces` does (cut
the `.json` extension, split on `:` or `=`) gives back `(k, ns, l)`. -/
theorem filename_roundtrip (k : NamespaceType) (ns l : String)
    (hns : ∀ c ∈ ns.data, validChar c = true) (hl : ∀ c ∈ l.data, validChar c = true)
    (hk : k = TypeNone → ns = "") :
    loadSpacesEntry (spaceFilename k ns l) = some (some (k, ns, l)) := by
  have n1 : ':' ∉ ns.data := fun h => validChar_ne_colon (hns _ h) rfl
  have n2 : '=' ∉ ns.data := fun h => validChar_ne_equals (hns _ h) rfl
  have l1 : ':' ∉ l.data := fun h => validChar_ne_colon (hl _ h) rfl
  have l2 : '=' ∉ l.data := fun h => validChar_ne_equals (hl _ h) rfl
  cases k with
  | TypeNone =>
    rw [hk rfl]
    simp only [spaceFilename, ne_eq, not_true_eq_false, if_false]
    rw [loadSpacesEntry_json, decodeLabel_none l l1 l2]
  | TypeUser =>
    have : spaceFilename TypeUser ns l
        = (ns ++ String.singleton filenameSeparatorUser ++ l) ++ ".json" := by
      simp [spaceFilename]
    rw [this, loadSpacesEntry_json, decodeLabel_user ns l n1 l1]
  | TypeOrganization =>
    have : spaceFilename TypeOrganization ns l
        = (ns ++ String.singleton filenameSeparatorOrganization ++ l) ++ ".json" := by
      simp [spaceFilename]
    rw [this, loadSpacesEntry_json, decodeLabel_organization ns l n1 l1 n2 l2]

/-- Witness of C1 at the user space `bob:my-space`. -/
theorem filename_roundtrip_witness :
    loadSpacesEntry (spaceFilename TypeUser "bob" "my-space")
      = some (some (TypeUser, "bob", "my-space")) :=
  filename_roundtrip TypeUser "bob" "my-space" (by decide) (by decide) (by decide)

/-! ### Tags -/

theorem tagFound_iff (tag : String) (tags : List String) :
    tagFound tag tags = true ↔ tag ∈ tags := by
  induction tags with
  | nil => simp [tagFound]
  | cons t rest ih =>
    by_cases h : t = tag
    · simp [tagFound, h]
    · have h2 : ¬ tag = t := fun e => h e.symm
      simp [tagFound, h, h2, ih]

theorem tagIndex_none (tag : String) (tags : List String) (i : Nat) (h : tag ∉ tags) :
    tagIndex tag tags i = none := by
  induction tags generalizing i with
  | nil => rfl
  | cons t rest ih =>
    have h1 : ¬ t = tag := fun e => h (by simp [e])
    have h2 : tag ∉ rest := fun e => h (by simp [e])
    simp [tagIndex, h1, ih _ h2]

theorem tagIndex_some (tag : String) (tags : List String) (i k : Nat)
    (h : tagIndex tag tags i = some k) :
    i ≤ k ∧ tags.take (k - i) ++ tags.drop (k - i + 1) = tags.erase tag := by
  induction tags generalizing i with
  | nil => simp [tagIndex] at h
  | cons t rest ih =>
    by_cases ht : t = tag
    · simp only [tagIndex, ht, if_true, Option.some.injEq] at h
      subst h
      subst ht
      simp
    · simp only [tagIndex, ht, if_false] at h
      obtain ⟨hle, heq⟩ := ih (i + 1) h
      refine ⟨by omega, ?_⟩
      have hk : k - i = (k - (i + 1)) + 1 := by omega
      rw [hk, List.take_succ_cons, List.drop_succ_cons, List.cons_append, heq]
      have : (t == tag) = false := by simpa using ht
      rw [List.erase_cons, this]
      rfl

theorem tagDelete_tags (now : Nat) (command : Command) (tag : String) :
    (command.TagDelete now tag).Tags = command.Tags
      ∨ (command.TagDelete now tag).Tags = command.Tags.erase tag := by
  unfold Command.TagDelete
  by_cases h : tag = ""
  · simp [h]
  · simp only [h, if_false]
    cases hi : tagIndex tag command.Tags 0 with
    | none => simp
    | some k =>
      right
      have := (tagIndex_some tag command.Tags 0 k hi).2
      simpa using this

/-- C7. Tag idempotence of `TagAdd`: for a command whose tags hold no
duplicate and a non-empty tag `t`, after `TagAdd(t)` twice the lowercase form
of `t` occurs exactly once in the tags, and the tags after the second call are
the tags after the first. -/
theorem tagAdd_twice (toLower : String → String) (now1 now2 : Nat) (command : Command)
    (t : String) (hnd : command.Tags.Nodup) (ht : t ≠ "") :
    (((command.TagAdd toLower now1 t).TagAdd toLower now2 t).Tags.count (toLower t) = 1)
      ∧ ((command.TagAdd toLower now1 t).TagAdd toLower now2 t).Tags
          = (command.TagAdd toLower now1 t).Tags := by
  by_cases hf : tagFound (toLower t) command.Tags = true
  · have h1 : ∀ now, command.TagAdd toLower now t = command := by
      intro now; simp [Command.TagAdd, ht, hf]
    rw [h1, h1]
    exact ⟨List.count_eq_one_of_mem hnd ((tagFound_iff _ _).1 hf), rfl⟩
  · have hnot : toLower t ∉ command.Tags := fun h => hf ((tagFound_iff _ _).2 h)
    have h1 : (command.TagAdd toLower now1 t).Tags = command.Tags ++ [toLower t] := by
      simp [Command.TagAdd, ht, hf]
    have hf2 : tagFound (toLower t) (command.TagAdd toLower now1 t).Tags = true := by
      rw [h1, tagFound_iff]; simp
    have h2 : (command.TagAdd toLower now1 t).TagAdd toLower now2 t
        = command.TagAdd toLower now1 t := by
      generalize command.TagAdd toLower now1 t = c1 at hf2
      simp [Command.TagAdd, ht, hf2]
    rw [h2, h1]
    refine ⟨?_, rfl⟩
    rw [List.count_append, List.count_eq_zero_of_not_mem hnot]
    simp

/-- Witness of C7: adding `Net` twice to a command tagged `ssh`. -/
theorem tagAdd_twice_witness :
    ((((sampleCommand "deploy" ["ssh"]).TagAdd asciiToLower 1 "Net").TagAdd asciiToLower 2
        "Net").Tags.count (asciiToLower "Net") = 1)
      ∧ (((sampleCommand "deploy" ["ssh"]).TagAdd asciiToLower 1 "Net").TagAdd asciiToLower 2
        "Net").Tags = ((sampleCommand "deploy" ["ssh"]).TagAdd asciiToLower 1 "Net").Tags :=
  tagAdd_twice asciiToLower 1 2 (sampleCommand "deploy" ["ssh"]) "Net" (by decide) (by decide)

/-- C8. Removing an absent tag is a no-op: when `t` does not occur in the
tags, `TagDelete(t)` leaves the command (its tags, `UpdatedAt` and every other
field) as it was. -/
theorem tagDelete_absent (now : Nat) (command : Command) (t : String)
    (h : t ∉ command.Tags) : command.TagDelete now t = command := by
  unfold Command.TagDelete
  by_cases ht : t = ""
  · simp [ht]
  · simp [ht, tagIndex_none t command.Tags 0 h]

/-- Witness of C8: deleting `net` from a command tagged `ssh`. -/
theorem tagDelete_absent_witness :
    (sampleCommand "deploy" ["ssh"]).TagDelete 7 "net" = sampleCommand "deploy" ["ssh"] :=
  tagDelete_absent 7 (sampleCommand "deploy" ["ssh"]) "net" (by decide)

/-- C9. Tags stay a lowercase, duplicate-free set: when every tag of a
command is lowercase (a fixed point of `strings.ToLower`) and no tag occurs
twice, the same holds after `TagAdd(t)` and after `TagDelete(t)`, for every
string `t`. `strings.ToLower` is taken to be idempotent. -/
theorem tags_lowercase_nodup (toLower : String → String)
    (hidem : ∀ s, toLower (toLower s) = toLower s) (now : Nat) (command : Command)
    (t : String) (hlow : ∀ x ∈ command.Tags, toLower x = x) (hnd : command.Tags.Nodup) :
    ((∀ x ∈ (command.TagAdd toLower now t).Tags, toLower x = x)
        ∧ (command.TagAdd toLower now t).Tags.Nodup)
      ∧ ((∀ x ∈ (command.TagDelete now t).Tags, toLower x = x)
        ∧ (command.TagDelete now t).Tags.Nodup) := by
  constructor
  · unfold Command.TagAdd
    by_cases ht : t = ""
    · simp only [ht, if_true]; exact ⟨hlow, hnd⟩
    · simp only [ht, if_false]
      by_cases hf : tagFound (toLower t) command.Tags = true
      · simp only [hf, Bool.not_true]; exact ⟨hlow, hnd⟩
      · have hnot : toLower t ∉ command.Tags := fun h => hf ((tagFound_iff _ _).2 h)
        simp only [hf, Bool.not_false, if_true]
        constructor
        · intro x hx
          rcases List.mem_append.1 hx with h | h
          · exact hlow x h
          · rw [List.mem_singleton.1 h]; exact hidem t
        · exact List.Nodup.append hnd (List.nodup_singleton _)
            (by
              intro a ha hb
              rw [List.mem_singleton] at hb
              exact hnot (hb ▸ ha))
  · rcases tagDelete_tags now command t with h | h
    · rw [h]; exact ⟨hlow, hnd⟩
    · rw [h]
      exact ⟨fun x hx => hlow x (List.mem_of_mem_erase hx), hnd.erase t⟩

theorem char_toLower_idem (c : Char) : c.toLower.toLower = c.toLower := by
  by_cases h : c.toNat ≥ 65 ∧ c.toNat ≤ 90
  · have hc : c = Char.ofNat c.toNat := (Char.ofNat_toNat c).symm
    generalize c.toNat = n at h hc
    subst hc
    obtain ⟨h1, h2⟩ := h
    interval_cases n <;> rfl
  · have : c.toLower = c := by
      unfold Char.toLower
      simp only [ge_iff_le, ite_eq_right_iff]
      intro h2
      exact absurd h2 h
    rw [this, this]

theorem asciiToLower_idem (s : String) : asciiToLower (asciiToLower s) = asciiToLower s := by
  apply String.ext
  simp [asciiToLower, char_toLower_idem]

/-- Witness of C9: the command tagged `ssh`, `net` and the tag `Ops`. -/
theorem tags_lowercase_nodup_witness :
    ((∀ x ∈ ((sampleCommand "deploy" ["ssh", "net"]).TagAdd asciiToLower 3 "Ops").Tags,
          asciiToLower x = x)
        ∧ ((sampleCommand "deploy" ["ssh", "net"]).TagAdd asciiToLower 3 "Ops").Tags.Nodup)
      ∧ ((∀ x ∈ ((sampleCommand "deploy" ["ssh", "net"]).TagDelete 3 "Ops").Tags,
          asciiToLower x = x)
        ∧ ((sampleCommand "deploy" ["ssh", "net"]).TagDelete 3 "Ops").Tags.Nodup) :=
  tags_lowercase_nodup asciiToLower asciiToLower_idem 3 (sampleCommand "deploy" ["ssh", "net"])
    "Ops" (by decide) (by decide)

/-! ### The repository -/

theorem persist_fst (resolve : String → String → String) (fs : FileSystem) (space : Space) :
    (Persist resolve fs space).1 = persistRewrite space := rfl

theorem persist_snd (resolve : String → String → String) (fs : FileSystem) (space : Space) :
    (Persist resolve fs space).2
      = fs.WriteFile (persistFile resolve space) (persistRewrite space) := rfl

theorem fileExists_writeFile (fs : FileSystem) (file : String) (raw : Space) :
    (fs.WriteFile file raw).fileExists file = true := by
  simp [FileSystem.WriteFile, FileSystem.fileExists]

theorem filter_writeFile (fs : FileSystem) (file : String) (raw : Space) :
    (fs.WriteFile file raw).without file = fs.without file := by
  simp [FileSystem.WriteFile, FileSystem.without, List.filter_filter]

/-- Counterexample to C2 as stated: a space labelled `tools` whose selector
addresses `scripts`. After `Persist` its command has `Selector.Space = tools`,
which is not the `Space` of the selector of the owning space. -/
theorem persist_selector_space_counterexample :
    ¬ (∀ c ∈ (Persist resolveAt [] (sampleSpace "tools" [sampleCommand "deploy" []])).1.Entries,
        c.Selector.NamespaceType
            = (Persist resolveAt [] (sampleSpace "tools"
                [sampleCommand "deploy" []])).1.Selector.NamespaceType
          ∧ c.Selector.Namespace
            = (Persist resolveAt [] (sampleSpace "tools"
                [sampleCommand "deploy" []])).1.Selector.Namespace
          ∧ c.Selector.Space
            = (Persist resolveAt [] (sampleSpace "tools"
                [sampleCommand "deploy" []])).1.Selector.Space) := by
  decide

/-- C2, amended. `Persist` leaves the selector and the label of the space as
they were, and after it every command of the space has a selector whose
namespace kind and namespace are those of the selector of the owning space and
whose space is the `Label` of the owning space, whatever the selectors of the
commands were before. -/
theorem persist_commands_selector (resolve : String → String → String) (fs : FileSystem)
    (space : Space) :
    (Persist resolve fs space).1.Selector = space.Selector
      ∧ (Persist resolve fs space).1.Label = space.Label
      ∧ ∀ c ∈ (Persist resolve fs space).1.Entries,
          c.Selector.NamespaceType = space.Selector.NamespaceType
            ∧ c.Selector.Namespace = space.Selector.Namespace
            ∧ c.Selector.Space = space.Label := by
  refine ⟨rfl, rfl, ?_⟩
  intro c hc
  rw [persist_fst] at hc
  simp only [persistRewrite, List.mem_map] at hc
  obtain ⟨c0, _, rfl⟩ := hc
  exact ⟨rfl, rfl, rfl⟩

/-- Witness of C2, amended, at the space labelled `tools` and its command
`deploy`. -/
theorem persist_commands_selector_witness :
    (persistCommand (sampleSpace "tools" [sampleCommand "deploy" []])
        (sampleCommand "deploy" [])).Selector.NamespaceType = TypeNone
      ∧ (persistCommand (sampleSpace "tools" [sampleCommand "deploy" []])
        (sampleCommand "deploy" [])).Selector.Namespace = ""
      ∧ (persistCommand (sampleSpace "tools" [sampleCommand "deploy" []])
        (sampleCommand "deploy" [])).Selector.Space = "tools" :=
  (persist_commands_selector resolveAt [] (sampleSpace "tools" [sampleCommand "deploy" []])).2.2
    (persistCommand (sampleSpace "tools" [sampleCommand "deploy" []])
      (sampleCommand "deploy" []))
    (by decide)

/-- Counterexample to C3 as stated: for the space labelled `tools` whose
selector addresses `scripts`, `Persist` writes `tools.json` while
`Delete(space.Selector)` looks for `scripts.json`, and fails on the file system
that `Persist` leaves. -/
theorem persist_file_counterexample :
    persistFile resolveAt (sampleSpace "tools" []) = "/cbox/spaces/tools.json"
      ∧ deleteFile resolveAt (sampleSpace "tools" []).Selector = "/cbox/spaces/scripts.json"
      ∧ persistFile resolveAt (sampleSpace "tools" [])
          ≠ deleteFile resolveAt (sampleSpace "tools" []).Selector
      ∧ (Delete resolveAt (Persist resolveAt [] (sampleSpace "tools" [])).2
          (sampleSpace "tools" []).Selector).toOption = none := by
  decide

/-- C3, amended. The file `Persist(space)` writes is the one
`resolveSpaceFile` names for the namespace kind and namespace of
`space.Selector` and the `Label` of the space; whenever that label is the
`Space` of the selector, it is exactly the file `Delete(space.Selector)`
removes, and `Delete` run after `Persist` succeeds and removes it. -/
theorem persist_file_delete_file (resolve : String → String → String) (fs : FileSystem)
    (space : Space) :
    (Persist resolve fs space).2
        = fs.WriteFile
            (resolveSpaceFile resolve space.Selector.NamespaceType space.Selector.Namespace
              space.Label)
            (Persist resolve fs space).1
      ∧ (space.Label = space.Selector.Space →
          persistFile resolve space = deleteFile resolve space.Selector
            ∧ Delete resolve (Persist resolve fs space).2 space.Selector
              = .ok (fs.without (deleteFile resolve space.Selector))) := by
  refine ⟨rfl, ?_⟩
  intro h
  have hf : persistFile resolve space = deleteFile resolve space.Selector := by
    simp [persistFile, deleteFile, h]
  refine ⟨hf, ?_⟩
  rw [persist_snd, hf]
  simp only [Delete, FileSystem.Remove, fileExists_writeFile, if_true, filter_writeFile]

/-- Witness of C3, amended, at the space `scripts` labelled `scripts`. -/
theorem persist_file_delete_file_witness :
    persistFile resolveAt (sampleSpace "scripts" [])
        = deleteFile resolveAt (sampleSpace "scripts" []).Selector
      ∧ Delete resolveAt (Persist resolveAt [] (sampleSpace "scripts" [])).2
          (sampleSpace "scripts" []).Selector
        = .ok (FileSystem.without [] (deleteFile resolveAt (sampleSpace "scripts" []).Selector)) :=
  (persist_file_delete_file resolveAt [] (sampleSpace "scripts" [])).2 rfl

/-! ### Runs: the box, the files and the events -/

@[simp] theorem emit_cbox (w : World) (e : Event) : (w.emit e).cbox = w.cbox := rfl

@[simp] theorem emit_fs (w : World) (e : Event) : (w.emit e).fs = w.fs := rfl

@[simp] theorem emit_out (w : World) (e : Event) : (w.emit e).out = w.out ++ [e] := rfl

@[simp] theorem store_fs (w : World) (ptr : Nat) (space : Space) :
    (w.store ptr space).fs = w.fs := rfl

@[simp] theorem store_out (w : World) (ptr : Nat) (space : Space) :
    (w.store ptr space).out = w.out := rfl

@[simp] theorem store_spaces (w : World) (ptr : Nat) (space : Space) :
    (w.store ptr space).cbox.Spaces = w.cbox.Spaces.set ptr space := rfl

theorem findSpaceIndex_some (p : Space → Bool) (spaces : List Space) (ptr : Nat) (space : Space)
    (h : findSpaceIndex p spaces = some (ptr, space)) :
    spaces[ptr]? = some space ∧ p space = true := by
  induction spaces generalizing ptr with
  | nil => simp [findSpaceIndex] at h
  | cons s rest ih =>
    by_cases hp : p s = true
    · simp only [findSpaceIndex, hp, if_true, Option.some.injEq, Prod.mk.injEq] at h
      obtain ⟨rfl, rfl⟩ := h
      simp [hp]
    · simp only [findSpaceIndex, hp, Bool.false_eq_true, if_false, Option.map_eq_some'] at h
      obtain ⟨r, hr, hrr⟩ := h
      obtain ⟨r1, r2⟩ := r
      simp only [Prod.mk.injEq] at hrr
      obtain ⟨rfl, rfl⟩ := hrr
      simpa using ih r1 hr

theorem persist_spaces_getElem (resolve : String → String → String) (w : World)
    (ptr i : Nat) :
    (w.Persist resolve ptr).cbox.Spaces[i]?
      = if i = ptr then (w.cbox.Spaces[i]?).map persistRewrite else w.cbox.Spaces[i]? := by
  unfold World.Persist World.load
  cases h : w.cbox.Spaces.get? ptr with
  | none =>
    rw [List.get?_eq_getElem?] at h
    by_cases hi : i = ptr
    · subst hi; simp [h]
    · simp [hi]
  | some space =>
    rw [List.get?_eq_getElem?] at h
    have hlt : ptr < w.cbox.Spaces.length := by
      by_contra hc
      rw [List.getElem?_eq_none (by omega)] at h
      exact Option.noConfusion h
    by_cases hi : i = ptr
    · subst hi
      simp [h, persist_fst, List.getElem?_set_self, hlt]
    · have hne : ¬ ptr = i := fun e => hi e.symm
      simp [hi, List.getElem?_set_ne hne]

theorem saveFrom_spaces_getElem (resolve : String → String → String) (n ptr : Nat) (w : World)
    (i : Nat) :
    (saveFrom resolve n ptr w).cbox.Spaces[i]?
      = if ptr ≤ i ∧ i < ptr + n then (w.cbox.Spaces[i]?).map persistRewrite
        else w.cbox.Spaces[i]? := by
  induction n generalizing ptr w with
  | zero =>
    have : ¬ (ptr ≤ i ∧ i < ptr) := by omega
    simp [saveFrom, this]
  | succ n ih =>
    rw [saveFrom, ih, persist_spaces_getElem]
    by_cases h1 : i = ptr
    · subst h1
      have a : ¬ (i + 1 ≤ i ∧ i < i + 1 + n) := by omega
      have b : i ≤ i ∧ i < i + (n + 1) := by omega
      simp [a, b]
    · by_cases h2 : ptr + 1 ≤ i ∧ i < ptr + 1 + n
      · have b : ptr ≤ i ∧ i < ptr + (n + 1) := by omega
        simp [h1, h2, b]
      · have b : ¬ (ptr ≤ i ∧ i < ptr + (n + 1)) := by omega
        simp [h1, h2, b]

theorem save_spaces_getElem (resolve : String → String → String) (w : World) (i : Nat) :
    (Save resolve w).cbox.Spaces[i]? = (w.cbox.Spaces[i]?).map persistRewrite := by
  unfold Save
  rw [saveFrom_spaces_getElem]
  by_cases h : i < w.cbox.Spaces.length
  · simp [h]
  · have hn : w.cbox.Spaces[i]? = none := List.getElem?_eq_none (by omega)
    simp [h, hn]

theorem persist_warned (resolve : String → String → String) (w : World) (ptr : Nat) :
    warned (w.Persist resolve ptr).out = warned w.out := by
  unfold World.Persist
  cases w.load ptr with
  | none => rfl
  | some space => simp [warned, isWarning]

theorem saveFrom_warned (resolve : String → String → String) (n ptr : Nat) (w : World) :
    warned (saveFrom resolve n ptr w).out = warned w.out := by
  induction n generalizing ptr w with
  | zero => rfl
  | succ n ih => rw [saveFrom, ih, persist_warned]

theorem save_warned (resolve : String → String → String) (w : World) :
    warned (Save resolve w).out = warned w.out := saveFrom_warned resolve _ _ w

/-! ### The cloud controller -/

theorem findSpace_ok (ctrl : Controllers.CLIController) (cbox : CommandBox)
    (selector : Selector) (ptr : Nat) (space : Space)
    (h : ctrl.findSpace cbox selector = .ok (ptr, space)) :
    cbox.Spaces[ptr]? = some space := by
  unfold Controllers.CLIController.findSpace at h
  cases hf : findSpaceIndex (ctrl.addresses selector) cbox.Spaces with
  | none => rw [hf] at h; cases h
  | some r =>
    rw [hf] at h
    simp only [Except.ok.injEq] at h
    subst h
    exact (findSpaceIndex_some _ _ _ _ hf).1

theorem pull_world_spaces (ctrl : Controllers.CLIController) (w : World) (arg : String)
    (selector : Selector) (ptr : Nat) (L R : Space) (C : List Command)
    (hparse : ctrl.ParseSelectorMandatorySpace arg = .ok selector)
    (hfind : ctrl.findSpace w.cbox selector = .ok (ptr, L))
    (hR : ctrl.cloud.SpaceFind selector = .ok R)
    (hC : ctrl.cloud.CommandList selector = .ok C) :
    (ctrl.CloudSpacePull w arg).outcome = .returned
      ∧ (ctrl.CloudSpacePull w arg).world.cbox
        = (Save ctrl.resolve
            ((w.emit (.PrintAction "Pulling latest changes of an space")).store ptr
              (Controllers.pullAssign L R C))).cbox := by
  unfold Controllers.CLIController.CloudSpacePull
  simp only [hparse, hfind, hR, hC, emit_cbox]
  constructor
  · rfl
  · simp only [World.done, emit_cbox]
    split <;> rfl

/-- Counterexample to C5 as stated: the local space is labelled `mine`, the
remote command list is one command `b` whose selector and `ID` point at
`scripts`. After `CloudSpacePull` the entry of the local space is `b` with
`ID` `b@mine`: the entries are not the remote command list. -/
theorem pull_entries_counterexample :
    (((sampleController [sampleCommand "b" []]).CloudSpacePull
        (sampleWorld [sampleSpace "mine" [sampleCommand "a" []]]) "mine").world.load 0).map
          (fun s => s.Entries.map fun c => c.ID) = some ["b@mine"]
      ∧ [sampleCommand "b" []].map (fun c => c.ID) = ["b@scripts"]
      ∧ (((sampleController [sampleCommand "b" []]).CloudSpacePull
          (sampleWorld [sampleSpace "mine" [sampleCommand "a" []]]) "mine").world.load 0).map
            (fun s => s.Entries) ≠ some [sampleCommand "b" []] := by
  decide

/-- C5, amended. Pull preserves the label: for every local space `L` the
selector finds, remote space `R` and remote command list `C`,
`CloudSpacePull` returns and leaves the local space with `Label`, `Selector`
and `CreatedAt` of `L`, `Description` and `UpdatedAt` of `R`, and as entries
the commands of `C`, each with the namespace kind, namespace and space of its
selector and its `ID` rewritten from `L` by the `Persist` of the final save. -/
theorem pull_keeps_label (ctrl : Controllers.CLIController) (w : World) (arg : String)
    (selector : Selector) (ptr : Nat) (L R : Space) (C : List Command)
    (hparse : ctrl.ParseSelectorMandatorySpace arg = .ok selector)
    (hfind : ctrl.findSpace w.cbox selector = .ok (ptr, L))
    (hR : ctrl.cloud.SpaceFind selector = .ok R)
    (hC : ctrl.cloud.CommandList selector = .ok C) :
    (ctrl.CloudSpacePull w arg).outcome = .returned
      ∧ ∃ s, (ctrl.CloudSpacePull w arg).world.load ptr = some s
          ∧ s.Label = L.Label ∧ s.Selector = L.Selector ∧ s.CreatedAt = L.CreatedAt
          ∧ s.Description = R.Description ∧ s.UpdatedAt = R.UpdatedAt
          ∧ s.Entries = C.map (persistCommand L) := by
  obtain ⟨h1, h2⟩ := pull_world_spaces ctrl w arg selector ptr L R C hparse hfind hR hC
  refine ⟨h1, ?_⟩
  have hlt : ptr < w.cbox.Spaces.length := by
    have := findSpace_ok ctrl w.cbox selector ptr L hfind
    by_contra hc
    rw [List.getElem?_eq_none (by omega)] at this
    exact Option.noConfusion this
  refine ⟨persistRewrite (Controllers.pullAssign L R C), ?_, rfl, rfl, rfl, rfl, rfl, ?_⟩
  · unfold World.load
    rw [List.get?_eq_getElem?, h2, save_spaces_getElem]
    simp [hlt]
  · simp only [persistRewrite, Controllers.pullAssign]
    apply List.map_congr_left
    intro c _
    rfl

/-- Witness of C5, amended: the local space `mine` and the remote command `b`. -/
theorem pull_keeps_label_witness :
    ((sampleController [sampleCommand "b" []]).CloudSpacePull
        (sampleWorld [sampleSpace "mine" [sampleCommand "a" []]]) "mine").outcome = .returned
      ∧ ∃ s, ((sampleController [sampleCommand "b" []]).CloudSpacePull
            (sampleWorld [sampleSpace "mine" [sampleCommand "a" []]]) "mine").world.load 0
              = some s
          ∧ s.Label = "mine"
          ∧ s.Selector = (sampleSpace "mine" [sampleCommand "a" []]).Selector
          ∧ s.CreatedAt = 10 ∧ s.Description = "new" ∧ s.UpdatedAt = 99
          ∧ s.Entries
            = [sampleCommand "b" []].map
                (persistCommand (sampleSpace "mine" [sampleCommand "a" []])) :=
  pull_keeps_label (sampleController [sampleCommand "b" []])
    (sampleWorld [sampleSpace "mine" [sampleCommand "a" []]]) "mine"
    { NamespaceType := TypeNone, Namespace := "", Space := "mine", Item := "" } 0
    (sampleSpace "mine" [sampleCommand "a" []])
    { ID := "mine", Selector :=
        { NamespaceType := TypeNone, Namespace := "", Space := "mine", Item := "" },
      Label := "theirs", Description := "new", Entries := [], CreatedAt := 1, UpdatedAt := 99 }
    [sampleCommand "b" []] rfl rfl rfl rfl

/-- C4, the run at the failing input: the space `scripts` holds `deploy` and
`build`; publishing `deploy@scripts` sends `deploy` alone, and the save that
follows writes a file that holds `deploy` alone and leaves the box with
`deploy` alone. -/
theorem publish_item_saves_filtered_entries :
    ((sampleController []).CloudSpacePublish "" true false
        (sampleWorld [sampleSpace "scripts" [sampleCommand "deploy" [], sampleCommand "build" []]])
        "deploy@scripts").outcome = .returned
      ∧ ((sampleController []).CloudSpacePublish "" true false
          (sampleWorld [sampleSpace "scripts"
            [sampleCommand "deploy" [], sampleCommand "build" []]])
          "deploy@scripts").world.cbox.Spaces.map (fun s => s.Entries.map fun c => c.Label)
        = [["deploy"]]
      ∧ ((sampleController []).CloudSpacePublish "" true false
          (sampleWorld [sampleSpace "scripts"
            [sampleCommand "deploy" [], sampleCommand "build" []]])
          "deploy@scripts").world.fs.map (fun e => (e.1, e.2.Entries.map fun c => c.Label))
        = [("/cbox/spaces/bob:scripts.json", ["deploy"])] := by
  decide

theorem warned_append (out : List Event) (e : Event) :
    warned (out ++ [e]) = (warned out || isWarning e) := by
  simp [warned]

theorem publishWarning_warned (OrganizationOption previousSpace : String) (space : Space)
    (w : World) :
    warned (Controllers.publishWarning OrganizationOption previousSpace space w).out
      = (warned w.out
          || decide (OrganizationOption ≠ "" ∧ previousSpace ≠ OrganizationOption)) := by
  unfold Controllers.publishWarning
  by_cases h : OrganizationOption ≠ "" ∧ previousSpace ≠ OrganizationOption
  · rw [if_pos h, emit_out, warned_append]
    simp [h, isWarning]
  · rw [if_neg h]
    simp [h]

theorem publishConfirmed_warned (ctrl : Controllers.CLIController)
    (OrganizationOption : String) (SkipQuestionsFlag answer : Bool) (previousSpace : String)
    (selector : Selector) (space : Space) (w : World) :
    warned (ctrl.publishConfirmed OrganizationOption SkipQuestionsFlag answer previousSpace
        selector space w).world.out
      = (warned w.out
          || decide (OrganizationOption ≠ "" ∧ previousSpace ≠ OrganizationOption)) := by
  have hw := publishWarning_warned OrganizationOption previousSpace space w
  unfold Controllers.CLIController.publishConfirmed
  generalize Controllers.publishWarning OrganizationOption previousSpace space w = w1 at hw
  rw [← hw]
  cases SkipQuestionsFlag <;> cases answer <;>
    simp only [Bool.false_eq_true, if_false, if_true, Bool.or_self, Bool.or_true, Bool.or_false,
      Bool.true_or, World.done, World.fatalf, emit_out, warned_append, isWarning,
      Bool.or_false] <;>
    (split <;> [skip; split]) <;>
    simp only [save_warned, emit_out, warned_append] <;>
    simp [warned, isWarning]

/-- Counterexample to C10 as stated: the space `scripts` has no namespace, the
caller is `bob` and the organization override is `bob`. The space is
published under namespace `bob`, which differs from the empty namespace it
had when the action started, and an override is given; no warning is shown. -/
theorem publish_warning_counterexample :
    warned ((sampleController []).CloudSpacePublish "bob" true false
        (sampleWorld [sampleSpace "scripts" [sampleCommand "deploy" []]]) "scripts").world.out
        = false
      ∧ ("bob" : String) ≠ ""
      ∧ (sampleSpace "scripts" [sampleCommand "deploy" []]).Selector.Namespace = ""
      ∧ (((sampleController []).CloudSpacePublish "bob" true false
          (sampleWorld [sampleSpace "scripts" [sampleCommand "deploy" []]])
          "scripts").world.load 0).map (fun s => s.Selector.Namespace) = some "bob"
      ∧ ¬ (warned ((sampleController []).CloudSpacePublish "bob" true false
            (sampleWorld [sampleSpace "scripts" [sampleCommand "deploy" []]])
            "scripts").world.out = true
          ↔ (("bob" : String) ≠ "" ∧ ("bob" : String)
              ≠ (sampleSpace "scripts" [sampleCommand "deploy" []]).Selector.Namespace)) := by
  decide

/-- C10, amended. In a run of `CloudSpacePublish` that finds the space `L`
and gets past the item filter, the warning is shown exactly when an
organization override is given and it differs from the namespace the space
has once the default for a space without namespace is applied: the namespace
of `L` if it has one, the login of the caller otherwise. -/
theorem publish_warning_iff (ctrl : Controllers.CLIController) (OrganizationOption : String)
    (SkipQuestionsFlag answer : Bool) (w : World) (arg : String) (selector : Selector)
    (ptr : Nat) (L : Space)
    (hout : w.out = [])
    (hparse : ctrl.ParseSelectorMandatorySpace arg = .ok selector)
    (hfind : ctrl.findSpace w.cbox selector = .ok (ptr, L))
    (hitem : selector.Item ≠ "" →
      (ctrl.CommandList
        (Controllers.overrideNamespace OrganizationOption
          (Controllers.defaultNamespace ctrl.cloud.Login L)) selector.Item).length ≠ 0) :
    warned (ctrl.CloudSpacePublish OrganizationOption SkipQuestionsFlag answer w arg).world.out
        = true
      ↔ (OrganizationOption ≠ ""
          ∧ (if L.Selector.Namespace = "" then ctrl.cloud.Login else L.Selector.Namespace)
            ≠ OrganizationOption) := by
  have hprev : (Controllers.defaultNamespace ctrl.cloud.Login L).Selector.Namespace
      = if L.Selector.Namespace = "" then ctrl.cloud.Login else L.Selector.Namespace := by
    unfold Controllers.defaultNamespace
    split <;> simp_all
  unfold Controllers.CLIController.CloudSpacePublish
  simp only [hparse, emit_cbox, hfind]
  by_cases hi : selector.Item ≠ ""
  · rw [if_pos hi, if_neg (hitem hi), publishConfirmed_warned]
    simp [hout, warned, hprev, isWarning]
  · rw [if_neg hi, publishConfirmed_warned]
    simp [hout, warned, hprev, isWarning]

/-- Witness of C10, amended: the space `scripts` without namespace, the caller
`bob`, the override `acme`. -/
theorem publish_warning_iff_witness :
    warned ((sampleController []).CloudSpacePublish "acme" true false
        (sampleWorld [sampleSpace "scripts" [sampleCommand "deploy" []]]) "scripts").world.out
        = true
      ↔ (("acme" : String) ≠ ""
          ∧ (if (sampleSpace "scripts" [sampleCommand "deploy" []]).Selector.Namespace = ""
              then (sampleController []).cloud.Login
              else (sampleSpace "scripts" [sampleCommand "deploy" []]).Selector.Namespace)
            ≠ "acme") :=
  publish_warning_iff (sampleController []) "acme" true false
    (sampleWorld [sampleSpace "scripts" [sampleCommand "deploy" []]]) "scripts"
    { NamespaceType := TypeNone, Namespace := "", Space := "scripts", Item := "" } 0
    (sampleSpace "scripts" [sampleCommand "deploy" []]) rfl rfl rfl (by decide)

/-! ### The spaces controller -/

theorem storageSteps_append (xs ys : List Event) :
    storageSteps (xs ++ ys) = storageSteps xs ++ storageSteps ys := by
  induction xs with
  | nil => rfl
  | cons e rest ih => cases e <;> simp [storageSteps, ih]

theorem spacesEditAsk_facts (edit : Space → Space) (w : World) (ptr : Nat) (space : Space) :
    (Cli.spacesEditAsk edit w ptr space).fs = w.fs
      ∧ storageSteps (Cli.spacesEditAsk edit w ptr space).out = storageSteps w.out
      ∧ (Cli.spacesEditAsk edit w ptr space).cbox.Spaces = w.cbox.Spaces.set ptr (edit space) := by
  refine ⟨rfl, ?_, rfl⟩
  simp [Cli.spacesEditAsk, storageSteps_append, storageSteps]

theorem spaceEditRetry_facts (ctrl : Cli.CLIController) (previousLabel : String) (ptr : Nat)
    (labels : List String) (w : World) (space : Space) (w2 : World) (space2 : Space)
    (h : Cli.spaceEditRetry ctrl previousLabel ptr labels w space = .ok (w2, space2))
    (hptr : w.cbox.Spaces[ptr]? = some space) :
    w2.fs = w.fs ∧ storageSteps w2.out = storageSteps w.out
      ∧ w2.cbox.Spaces[ptr]? = some space2 := by
  induction labels generalizing w space with
  | nil =>
    unfold Cli.spaceEditRetry at h
    cases hs : ctrl.SpaceEdit w.cbox space previousLabel with
    | none =>
      rw [hs] at h
      simp only [Except.ok.injEq, Prod.mk.injEq] at h
      obtain ⟨rfl, rfl⟩ := h
      exact ⟨rfl, rfl, hptr⟩
    | some err => rw [hs] at h; cases h
  | cons line rest ih =>
    unfold Cli.spaceEditRetry at h
    cases hs : ctrl.SpaceEdit w.cbox space previousLabel with
    | none =>
      rw [hs] at h
      simp only [Except.ok.injEq, Prod.mk.injEq] at h
      obtain ⟨rfl, rfl⟩ := h
      exact ⟨rfl, rfl, hptr⟩
    | some err =>
      rw [hs] at h
      have hlt : ptr < w.cbox.Spaces.length := by
        by_contra hc
        rw [List.getElem?_eq_none (by omega)] at hptr
        exact Option.noConfusion hptr
      obtain ⟨h1, h2, h3⟩ := ih _ _ h (by simp [List.getElem?_set_self, hlt])
      refine ⟨h1, ?_, h3⟩
      rw [h2]
      simp [storageSteps_append, storageSteps]

theorem persistCbox_steps (resolve : String → String → String) (spaces : List Space)
    (w : World) :
    storageSteps (spaces.foldl (Cli.SpaceStore resolve) w).out
      = storageSteps w.out
        ++ spaces.map fun s => Event.WriteFile (persistFile resolve s) (persistRewrite s) := by
  induction spaces generalizing w with
  | nil => simp
  | cons s rest ih =>
    rw [List.foldl_cons, ih]
    simp [Cli.SpaceStore, storageSteps_append, storageSteps, persist_fst, persistFile,
      persistRewrite]

theorem persistCbox_cbox (resolve : String → String → String) (spaces : List Space)
    (w : World) : (spaces.foldl (Cli.SpaceStore resolve) w).cbox = w.cbox := by
  induction spaces generalizing w with
  | nil => rfl
  | cons s rest ih => rw [List.foldl_cons, ih]; rfl

theorem fileExists_filter (fs : FileSystem) (file : String) :
    (fs.without file).fileExists file = false := by
  simp [FileSystem.fileExists, FileSystem.without]

theorem fileExists_filter_of_absent (fs : FileSystem) (file other : String)
    (h : fs.fileExists other = false) :
    (fs.without file).fileExists other = false := by
  simp only [FileSystem.fileExists, FileSystem.without, List.any_eq_false, List.mem_filter] at h ⊢
  intro e he
  exact h e he.1

/-- Counterexample to C6 as stated: the box holds the space `scripts`, stored
in `scripts.json`; the edit renames it to `tools` and is confirmed. The first
storage step removes `scripts.json`, the write of `tools.json` comes second,
and on the disk between the two steps the space is stored under neither name.
Replaying the recorded steps gives the disk the run ends with. -/
theorem spacesEdit_order_counterexample :
    storageStepFiles (sampleCli.SpacesEdit (fun s => { s with Label := "tools" }) true []
        (sampleWorld [sampleSpace "scripts" []]) "scripts").world.out
        = [("remove", "/cbox/spaces/scripts.json"), ("write", "/cbox/spaces/tools.json")]
      ∧ (diskAfter (sampleWorld [sampleSpace "scripts" []]).fs
          [Event.Remove "/cbox/spaces/scripts.json"]).fileExists "/cbox/spaces/scripts.json"
        = false
      ∧ (diskAfter (sampleWorld [sampleSpace "scripts" []]).fs
          [Event.Remove "/cbox/spaces/scripts.json"]).fileExists "/cbox/spaces/tools.json"
        = false
      ∧ diskAfter (sampleWorld [sampleSpace "scripts" []]).fs
          (sampleCli.SpacesEdit (fun s => { s with Label := "tools" }) true []
            (sampleWorld [sampleSpace "scripts" []]) "scripts").world.out
        = (sampleCli.SpacesEdit (fun s => { s with Label := "tools" }) true []
            (sampleWorld [sampleSpace "scripts" []]) "scripts").world.fs := by
  decide

theorem spaceDeleteFile_ok (resolve : String → String → String) (w : World) (label : String)
    (h : w.fs.fileExists (resolveSpaceFile resolve TypeNone "" label) = true) :
    Cli.SpaceDeleteFile resolve w (Cli.spaceWithLabel label)
      = .ok (w.removed (resolveSpaceFile resolve TypeNone "" label)) := by
  have hd : deleteFile resolve
      { NamespaceType := TypeNone, Namespace := "", Space := label, Item := "" }
      = resolveSpaceFile resolve TypeNone "" label := rfl
  simp only [Cli.SpaceDeleteFile, Cli.spaceWithLabel, World.Delete, Delete, FileSystem.Remove,
    hd, h, if_true, World.removed]

/-- C6, amended. Rename order in `SpacesEdit`: when a confirmed edit ends
with a label other than the one the action was called with (and the file of
the old name is on disk), the run returns and its storage steps are, in this
order, the removal of the file of the old name and then one write per space
of the box, the edited space among them. On the disk between the removal and
the writes the old file is gone, and the file of the new name is not there
unless it was there before the run. -/
theorem spacesEdit_delete_then_write (ctrl : Cli.CLIController) (edit : Space → Space)
    (labels : List String) (w : World) (arg : String) (selector : Selector) (ptr : Nat)
    (L : Space) (w2 : World) (space2 : Space)
    (hout : w.out = [])
    (hparse : ctrl.ParseSelectorMandatorySpace arg = .ok selector)
    (hfind : findSpaceIndex (ctrl.labelled selector.Space) w.cbox.Spaces = some (ptr, L))
    (hedit : Cli.spaceEditRetry ctrl selector.Space ptr labels (Cli.spacesEditAsk edit w ptr L)
      (edit L) = .ok (w2, space2))
    (hlabel : space2.Label ≠ selector.Space)
    (hold : w.fs.fileExists (resolveSpaceFile ctrl.resolve TypeNone "" selector.Space) = true) :
    (ctrl.SpacesEdit edit true labels w arg).outcome = .returned
      ∧ storageSteps (ctrl.SpacesEdit edit true labels w arg).world.out
        = Event.Remove (resolveSpaceFile ctrl.resolve TypeNone "" selector.Space)
          :: w2.cbox.Spaces.map
              (fun s => Event.WriteFile (persistFile ctrl.resolve s) (persistRewrite s))
      ∧ w2.cbox.Spaces[ptr]? = some space2
      ∧ (diskAfter w.fs
          [Event.Remove (resolveSpaceFile ctrl.resolve TypeNone "" selector.Space)]).fileExists
            (resolveSpaceFile ctrl.resolve TypeNone "" selector.Space) = false
      ∧ (w.fs.fileExists (persistFile ctrl.resolve space2) = false →
          (diskAfter w.fs
            [Event.Remove (resolveSpaceFile ctrl.resolve TypeNone "" selector.Space)]).fileExists
              (persistFile ctrl.resolve space2) = false) := by
  have hlt : ptr < w.cbox.Spaces.length := by
    have := (findSpaceIndex_some _ _ _ _ hfind).1
    by_contra hc
    rw [List.getElem?_eq_none (by omega)] at this
    exact Option.noConfusion this
  obtain ⟨a1, a2, a3⟩ := spacesEditAsk_facts edit w ptr L
  obtain ⟨b1, b2, b3⟩ := spaceEditRetry_facts ctrl selector.Space ptr labels _ _ w2 space2 hedit
    (by rw [a3]; simp [List.getElem?_set_self, hlt])
  have hold2 : w2.fs.fileExists (resolveSpaceFile ctrl.resolve TypeNone "" selector.Space)
      = true := by rw [b1, a1]; exact hold
  have hsteps : storageSteps w2.out = [] := by rw [b2, a2, hout]; rfl
  have hrun : ctrl.SpacesEdit edit true labels w arg
      = ((Cli.PersistCbox ctrl.resolve
          (w2.removed (resolveSpaceFile ctrl.resolve TypeNone "" selector.Space))
          w2.cbox).emit (.PrintSuccess "Space updated successfully!")).done := by
    unfold Cli.CLIController.SpacesEdit
    simp only [hparse, hfind, hedit, if_true, ne_eq, hlabel, not_false_eq_true,
      spaceDeleteFile_ok ctrl.resolve w2 selector.Space hold2]
    rfl
  rw [hrun]
  refine ⟨rfl, ?_, b3, ?_, ?_⟩
  · simp only [World.done, emit_out, Cli.PersistCbox, storageSteps_append, persistCbox_steps,
      hsteps, World.removed]
    simp [storageSteps]
  · exact fileExists_filter _ _
  · intro h
    exact fileExists_filter_of_absent _ _ _ h

/-- Witness of C6, amended: the space `scripts` renamed to `tools`. -/
theorem spacesEdit_delete_then_write_witness :
    (sampleCli.SpacesEdit (fun s => { s with Label := "tools" }) true []
        (sampleWorld [sampleSpace "scripts" []]) "scripts").outcome = .returned
      ∧ storageSteps (sampleCli.SpacesEdit (fun s => { s with Label := "tools" }) true []
          (sampleWorld [sampleSpace "scripts" []]) "scripts").world.out
        = Event.Remove "/cbox/spaces/scripts.json"
          :: [sampleSpace "tools" []].map
              (fun s => Event.WriteFile (persistFile resolveAt s) (persistRewrite s)) :=
  have h := spacesEdit_delete_then_write sampleCli (fun s => { s with Label := "tools" }) []
    (sampleWorld [sampleSpace "scripts" []]) "scripts"
    { NamespaceType := TypeNone, Namespace := "", Space := "scripts", Item := "" } 0
    (sampleSpace "scripts" [])
    (Cli.spacesEditAsk (fun s => { s with Label := "tools" })
      (sampleWorld [sampleSpace "scripts" []]) 0 (sampleSpace "scripts" []))
    (sampleSpace "tools" []) rfl rfl rfl rfl (by decide) (by decide)
  ⟨h.1, h.2.1⟩

/-! ### Tags, continued -/

theorem tagIndex_append_new (tag : String) (tags : List String) (i : Nat) (h : tag ∉ tags) :
    tagIndex tag (tags ++ [tag]) i = some (i + tags.length) := by
  induction tags generalizing i with
  | nil => simp [tagIndex]
  | cons t rest ih =>
    have h1 : ¬ t = tag := fun e => h (by simp [e])
    have h2 : tag ∉ rest := fun e => h (by simp [e])
    simp only [List.cons_append, tagIndex, h1, if_false, List.length_cons]
    show tagIndex tag (rest ++ [tag]) (i + 1) = some (i + (rest.length + 1))
    rw [ih _ h2]
    congr 1
    omega

/-- For a new tag that is already lowercase, `TagDelete` undoes `TagAdd`:
`TagAdd` appends the tag and `TagDelete` removes it again. -/
theorem tagAdd_tagDelete_lowercase (toLower : String → String) (now1 now2 : Nat)
    (command : Command) (t : String) (ht : t ≠ "") (hlow : toLower t = t)
    (hnew : t ∉ command.Tags) :
    ((command.TagAdd toLower now1 t).TagDelete now2 t).Tags = command.Tags
      ∧ ((command.TagAdd toLower now1 t).TagDelete now2 t).Tagged t = false := by
  have hf : tagFound t command.Tags = false := by
    cases h : tagFound t command.Tags with
    | false => rfl
    | true => exact absurd ((tagFound_iff _ _).1 h) hnew
  have h1 : command.TagAdd toLower now1 t
      = { command with Tags := command.Tags ++ [t], UpdatedAt := now1 } := by
    simp [Command.TagAdd, ht, hlow, hf]
  have h2 : ((command.TagAdd toLower now1 t).TagDelete now2 t).Tags = command.Tags := by
    rw [h1]
    simp [Command.TagDelete, ht, tagIndex_append_new t command.Tags 0 hnew]
  refine ⟨h2, ?_⟩
  unfold Command.Tagged
  rw [h2, hf]

/-- C18, the run at the failing input: the command is tagged `ssh`, the tag
is `Net`. `TagAdd` stores `net`; `TagDelete` looks for `Net`, finds nothing,
and the tags stay `ssh`, `net` instead of going back to `ssh`. -/
theorem tagDelete_keeps_lowered_tag :
    ((sampleCommand "deploy" ["ssh"]).TagAdd asciiToLower 1 "Net").Tags = ["ssh", "net"]
      ∧ (((sampleCommand "deploy" ["ssh"]).TagAdd asciiToLower 1 "Net").TagDelete 2 "Net").Tags
        = ["ssh", "net"]
      ∧ (((sampleCommand "deploy" ["ssh"]).TagAdd asciiToLower 1 "Net").TagDelete 2 "Net").Tags
        ≠ (sampleCommand "deploy" ["ssh"]).Tags
      ∧ (sampleCommand "deploy" ["ssh"]).Tags.Nodup
      ∧ asciiToLower "Net" ∉ (sampleCommand "deploy" ["ssh"]).Tags := by
  decide

/-! ### File names, continued -/

theorem validChar_ne_slash {c : Char} (h : validChar c = true) : c ≠ '/' := by
  rintro rfl; revert h; decide

/-- C14. Filesystem-safe form: the file name `resolveSpaceFile` computes is
`label.json` for `TypeNone`, `namespace:label.json` for `TypeUser` and
`namespace=label.json` for `TypeOrganization`, handed to `repo.resolve` with
the `spaces` directory; when namespace and label are made of lowercase
letters, digits and hyphens, the name holds no `/`. -/
theorem spaceFilename_form (resolve : String → String → String) (k : NamespaceType)
    (ns l : String) :
    resolveSpaceFile resolve k ns l = resolve "spaces" (spaceFilename k ns l)
      ∧ spaceFilename k ns l
        = (match k with
          | TypeNone => l ++ ".json"
          | TypeUser => ns ++ ":" ++ l ++ ".json"
          | TypeOrganization => ns ++ "=" ++ l ++ ".json")
      ∧ ((∀ c ∈ ns.data, validChar c = true) → (∀ c ∈ l.data, validChar c = true) →
          '/' ∉ (spaceFilename k ns l).data) := by
  refine ⟨rfl, ?_, ?_⟩
  · cases k <;> rfl
  · intro hns hl
    have n1 : '/' ∉ ns.data := fun h => validChar_ne_slash (hns _ h) rfl
    have l1 : '/' ∉ l.data := fun h => validChar_ne_slash (hl _ h) rfl
    cases k <;>
      simp [spaceFilename, String.data_append, String.singleton, filenameSeparatorUser,
        filenameSeparatorOrganization, n1, l1]

/-- Witness of C14: the organization space `acme=my-space.json`. -/
theorem spaceFilename_form_witness :
    spaceFilename TypeOrganization "acme" "my-space" = "acme=my-space.json"
      ∧ '/' ∉ (spaceFilename TypeOrganization "acme" "my-space").data :=
  ⟨(spaceFilename_form resolveAt TypeOrganization "acme" "my-space").2.1,
    (spaceFilename_form resolveAt TypeOrganization "acme" "my-space").2.2 (by decide)
      (by decide)⟩

/-! ### The cloud controller, continued -/

theorem persist_out_mem (resolve : String → String → String) (w : World) (ptr : Nat)
    (e : Event) (h : e ∈ w.out) : e ∈ (w.Persist resolve ptr).out := by
  unfold World.Persist
  cases w.load ptr with
  | none => exact h
  | some space => simp [h]

theorem saveFrom_out_mem (resolve : String → String → String) (n ptr : Nat) (w : World)
    (e : Event) (h : e ∈ w.out) : e ∈ (saveFrom resolve n ptr w).out := by
  induction n generalizing ptr w with
  | zero => exact h
  | succ n ih => exact ih _ _ (persist_out_mem resolve w ptr e h)

theorem save_out_mem (resolve : String → String → String) (w : World) (e : Event)
    (h : e ∈ w.out) : e ∈ (Save resolve w).out := saveFrom_out_mem resolve _ _ w e h

theorem publishConfirmed_out_mem (ctrl : Controllers.CLIController)
    (OrganizationOption : String) (SkipQuestionsFlag answer : Bool) (previousSpace : String)
    (selector : Selector) (space : Space) (w : World) (e : Event) (h : e ∈ w.out) :
    e ∈ (ctrl.publishConfirmed OrganizationOption SkipQuestionsFlag answer previousSpace
        selector space w).world.out := by
  have hw : e ∈ (Controllers.publishWarning OrganizationOption previousSpace space w).out := by
    unfold Controllers.publishWarning
    split
    · simp [h]
    · exact h
  unfold Controllers.CLIController.publishConfirmed
  generalize Controllers.publishWarning OrganizationOption previousSpace space w = w1 at hw
  cases SkipQuestionsFlag <;> cases answer <;>
    simp only [Bool.false_eq_true, if_false, if_true, Bool.or_self, Bool.or_true, Bool.or_false,
      Bool.true_or, World.done, World.fatalf, emit_out] <;>
    first
    | (simp [hw]; done)
    | (split
       · simp [hw]
       · split
         · simp [hw]
         · simp only [emit_out, List.mem_append]
           left
           apply save_out_mem
           simp [hw])

theorem publishConfirmed_selector (ctrl : Controllers.CLIController)
    (OrganizationOption : String) (SkipQuestionsFlag answer : Bool) (previousSpace : String)
    (selector : Selector) (space : Space) (w : World) (ptr : Nat)
    (h : w.cbox.Spaces[ptr]? = some space) :
    ∃ s, (ctrl.publishConfirmed OrganizationOption SkipQuestionsFlag answer previousSpace
        selector space w).world.cbox.Spaces[ptr]? = some s ∧ s.Selector = space.Selector := by
  have hw : (Controllers.publishWarning OrganizationOption previousSpace space w).cbox
      = w.cbox := by
    unfold Controllers.publishWarning
    split <;> rfl
  unfold Controllers.CLIController.publishConfirmed
  generalize Controllers.publishWarning OrganizationOption previousSpace space w = w1 at hw
  cases SkipQuestionsFlag <;> cases answer <;>
    simp only [Bool.false_eq_true, if_false, if_true, Bool.or_self, Bool.or_true, Bool.or_false,
      Bool.true_or, World.done, World.fatalf, emit_cbox] <;>
    first
    | exact ⟨space, by rw [hw]; exact h, rfl⟩
    | (split
       · exact ⟨space, by simp only [emit_cbox, hw]; exact h, rfl⟩
       · split
         · exact ⟨space, by simp only [emit_cbox, hw]; exact h, rfl⟩
         · refine ⟨persistRewrite space, ?_, rfl⟩
           simp only [emit_cbox, save_spaces_getElem, hw, h, Option.map_some'])

theorem getElem_of_findSpace (ctrl : Controllers.CLIController) (cbox : CommandBox)
    (selector : Selector) (ptr : Nat) (space : Space)
    (h : ctrl.findSpace cbox selector = .ok (ptr, space)) : ptr < cbox.Spaces.length := by
  have := findSpace_ok ctrl cbox selector ptr space h
  by_contra hc
  rw [List.getElem?_eq_none (by omega)] at this
  exact Option.noConfusion this

/-- C11. Publish target namespace: in a run of `CloudSpacePublish` that finds
the space `L`, the target `T` computed on lines 43-53 has namespace kind and
namespace `(TypeOrganization, override)` when an organization override is
given; otherwise `(TypeUser, login of the caller)` when `L` had no namespace;
otherwise those of `L`. `T` is the space shown as `Space to publish`, and the
space of the box carries the selector of `T` when the run ends. -/
theorem publish_target_namespace (ctrl : Controllers.CLIController)
    (OrganizationOption : String) (SkipQuestionsFlag answer : Bool) (w : World) (arg : String)
    (selector : Selector) (ptr : Nat) (L : Space)
    (hparse : ctrl.ParseSelectorMandatorySpace arg = .ok selector)
    (hfind : ctrl.findSpace w.cbox selector = .ok (ptr, L)) :
    ((Controllers.overrideNamespace OrganizationOption
          (Controllers.defaultNamespace ctrl.cloud.Login L)).Selector.NamespaceType,
        (Controllers.overrideNamespace OrganizationOption
          (Controllers.defaultNamespace ctrl.cloud.Login L)).Selector.Namespace)
        = (if OrganizationOption ≠ "" then (TypeOrganization, OrganizationOption)
          else if L.Selector.Namespace = "" then (TypeUser, ctrl.cloud.Login)
          else (L.Selector.NamespaceType, L.Selector.Namespace))
      ∧ Event.PrintSpace "Space to publish"
          (Controllers.overrideNamespace OrganizationOption
            (Controllers.defaultNamespace ctrl.cloud.Login L))
        ∈ (ctrl.CloudSpacePublish OrganizationOption SkipQuestionsFlag answer w arg).world.out
      ∧ ∃ s, (ctrl.CloudSpacePublish OrganizationOption SkipQuestionsFlag answer w
            arg).world.load ptr = some s
          ∧ s.Selector
            = (Controllers.overrideNamespace OrganizationOption
                (Controllers.defaultNamespace ctrl.cloud.Login L)).Selector := by
  have hlt := getElem_of_findSpace ctrl w.cbox selector ptr L hfind
  refine ⟨?_, ?_, ?_⟩
  · unfold Controllers.overrideNamespace Controllers.defaultNamespace
    by_cases h1 : OrganizationOption ≠ "" <;> by_cases h2 : L.Selector.Namespace = "" <;>
      simp [h1, h2]
  · unfold Controllers.CLIController.CloudSpacePublish
    simp only [hparse, emit_cbox, hfind]
    split
    · split
      · simp [World.fatalf]
      · apply publishConfirmed_out_mem
        simp
    · apply publishConfirmed_out_mem
      simp
  · unfold Controllers.CLIController.CloudSpacePublish World.load
    simp only [hparse, emit_cbox, hfind, List.get?_eq_getElem?]
    split
    · split
      · exact ⟨_, by simp [World.fatalf, List.getElem?_set_self, hlt], rfl⟩
      · refine publishConfirmed_selector ctrl _ _ _ _ _ _ _ ptr ?_
        simp [List.getElem?_set_self, hlt]
    · refine publishConfirmed_selector ctrl _ _ _ _ _ _ _ ptr ?_
      simp [List.getElem?_set_self, hlt]

/-- Witness of C11: the space `scripts` without namespace, the caller `bob`,
no override. -/
theorem publish_target_namespace_witness :
    ((Controllers.overrideNamespace ""
          (Controllers.defaultNamespace (sampleController []).cloud.Login
            (sampleSpace "scripts" []))).Selector.NamespaceType,
        (Controllers.overrideNamespace ""
          (Controllers.defaultNamespace (sampleController []).cloud.Login
            (sampleSpace "scripts" []))).Selector.Namespace)
      = (TypeUser, "bob") :=
  (publish_target_namespace (sampleController []) "" true false
    (sampleWorld [sampleSpace "scripts" []]) "scripts"
    { NamespaceType := TypeNone, Namespace := "", Space := "scripts", Item := "" } 0
    (sampleSpace "scripts" []) rfl rfl).1

/-! ### Console output -/

/-- Counterexample to C16 as stated: the selector of the space `scripts`, with
no item and no namespace, is rendered `@scripts`; the canonical form without
the `item@` part is `scripts`. -/
theorem console_selector_counterexample :
    Console.selector Console.plain
        { NamespaceType := TypeNone, Namespace := "", Space := "scripts", Item := "" }
        = "@scripts"
      ∧ Console.selector Console.plain
          { NamespaceType := TypeNone, Namespace := "", Space := "scripts", Item := "" }
        ≠ "scripts"
      ∧ Selector.String
          { NamespaceType := TypeNone, Namespace := "", Space := "scripts", Item := "" }
        = "scripts" := by
  decide

/-- C16, amended. Ignoring colour codes, the rendering of a selector with a
non-empty space is `item@namespace:space` (User), `item@namespace/space`
(Organization) or `item@space` (no namespace); when `Item` is empty only the
item is left out and the `@` stays, so the rendering is `@namespace:space`,
`@namespace/space` or `@space`. -/
theorem console_selector_form (sel : Selector) (hspace : sel.Space ≠ "") :
    Console.selector Console.plain sel
      = sel.Item ++ "@"
        ++ (match sel.NamespaceType with
          | TypeNone => sel.Space
          | TypeUser => sel.Namespace ++ ":" ++ sel.Space
          | TypeOrganization => sel.Namespace ++ "/" ++ sel.Space) := by
  obtain ⟨k, ns, sp, item⟩ := sel
  simp only at hspace
  apply String.ext
  by_cases hi : item = ""
  · subst hi
    cases k <;>
      simp [Console.selector, Console.plain, hspace, String.data_append]
  · cases k <;>
      simp [Console.selector, Console.plain, hspace, hi, String.data_append]

/-- Witness of C16, amended: the command `deploy` of the user space
`bob:scripts`. -/
theorem console_selector_form_witness :
    Console.selector Console.plain
        { NamespaceType := TypeUser, Namespace := "bob", Space := "scripts", Item := "deploy" }
      = "deploy@bob:scripts" :=
  console_selector_form
    { NamespaceType := TypeUser, Namespace := "bob", Space := "scripts", Item := "deploy" }
    (by decide)

/-! ### File names: from a scanned name back to itself -/

theorem extScan_suffix (r acc e : List Char) (h : extScan r acc = e) (hne : e ≠ []) :
    ∃ pre, r.reverse ++ acc = pre ++ e := by
  induction r generalizing acc with
  | nil => simp [extScan] at h; exact absurd h hne
  | cons c rest ih =>
    by_cases h1 : c = '/'
    · simp [extScan, h1] at h; exact absurd h hne
    · by_cases h2 : c = '.'
      · simp only [extScan, h1, h2, if_false, if_true] at h
        refine ⟨rest.reverse, ?_⟩
        rw [← h, h2]
        simp
      · simp only [extScan, h1, h2, if_false] at h
        obtain ⟨pre, hp⟩ := ih (c :: acc) h
        exact ⟨pre, by rw [← hp]; simp⟩

theorem name_eq_label_json (name : String) (hext : filepathExt name = ".json") :
    name = entryLabel name ++ ".json" := by
  have hd : extScan name.data.reverse [] = ".json".data := by
    have := congrArg String.data hext
    exact this
  obtain ⟨pre, hp⟩ := extScan_suffix _ _ _ hd (by decide)
  simp only [List.reverse_reverse, List.append_nil] at hp
  apply String.ext
  rw [String.data_append]
  unfold entryLabel
  rw [hext]
  show name.data = List.take (name.data.length - ".json".data.length) name.data ++ ".json".data
  rw [hp]
  simp

theorem exists_first_sep (sep : Char) (xs : List Char) (h : sep ∈ xs) :
    ∃ a r, xs = a ++ sep :: r ∧ sep ∉ a := by
  induction xs with
  | nil => simp at h
  | cons x rest ih =>
    by_cases hx : x = sep
    · exact ⟨[], rest, by simp [hx], by simp⟩
    · have hr : sep ∈ rest := by
        rcases List.mem_cons.1 h with e | e
        · exact absurd e.symm hx
        · exact e
      obtain ⟨a, r, e, ha⟩ := ih hr
      refine ⟨x :: a, r, by simp [e], ?_⟩
      intro hm
      rcases List.mem_cons.1 hm with e2 | e2
      · exact hx e2.symm
      · exact ha e2

theorem splitOn_first_sep (sep : Char) (a r : List Char) (ha : sep ∉ a) :
    (a ++ sep :: r).splitOn sep = a :: r.splitOn sep := by
  unfold List.splitOn
  rw [List.splitOnP_first _ _ (by intro x hx1; simp; rintro rfl; exact ha hx1) sep (by simp)]

theorem splitOn_head (sep : Char) (xs : List Char) :
    ∃ p ps, xs.splitOn sep = p :: ps ∧ (sep ∉ xs → p = xs)
      ∧ (sep ∈ xs → p.length < xs.length) := by
  by_cases h : sep ∈ xs
  · obtain ⟨a, r, e, ha⟩ := exists_first_sep sep xs h
    refine ⟨a, r.splitOn sep, ?_, fun hn => absurd h hn, fun _ => ?_⟩
    · rw [e, splitOn_first_sep sep a r ha]
    · rw [e]; simp
  · refine ⟨xs, [], ?_, fun _ => rfl, fun hm => absurd hm h⟩
    unfold List.splitOn
    rw [List.splitOnP_eq_single _ _ (by intro x hx1; simp; rintro rfl; exact h hx1)]

theorem decodeLabel_first_sep (s : String) (sep : Char) (a r : List Char)
    (e : s.data = a ++ sep :: r) (ha : sep ∉ a) :
    ∃ (p : List Char) (ps : List (List Char)), (p = r ↔ sep ∉ r)
      ∧ stringsContains s sep = true
      ∧ stringsSplit s sep = ⟨a⟩ :: ⟨p⟩ :: ps.map String.mk := by
  obtain ⟨p, ps, hp, h1, h2⟩ := splitOn_head sep r
  refine ⟨p, ps, ⟨fun hpr hm => ?_, h1⟩, ?_, ?_⟩
  · have := h2 hm
    rw [hpr] at this
    exact Nat.lt_irrefl _ this
  · simp [stringsContains, e]
  · unfold stringsSplit
    rw [e, splitOn_first_sep sep a r ha, hp]
    rfl

theorem count_first_sep (sep : Char) (a r : List Char) (ha : sep ∉ a) :
    (a ++ sep :: r).count sep = 1 + r.count sep := by
  rw [List.count_append, List.count_eq_zero_of_not_mem ha, List.count_cons_self]
  omega

theorem reencode_sep (s : String) (sep : Char) (a p r : List Char)
    (e : s.data = a ++ sep :: r) :
    (String.mk a ++ String.singleton sep ++ String.mk p) ++ ".json" = s ++ ".json" ↔ p = r := by
  constructor
  · intro h
    have hsing : (String.singleton sep).data = [sep] := rfl
    have hd := congrArg String.data h
    simp only [String.data_append, hsing, e, List.append_assoc, List.singleton_append,
      List.append_cancel_left_eq, List.cons_append, List.cons.injEq, true_and,
      List.append_cancel_right_eq, List.nil_append] at hd
    exact hd
  · rintro rfl
    have hsing : (String.singleton sep).data = [sep] := rfl
    congr 1
    apply String.ext
    simp [String.data_append, hsing, e]

theorem reencode_label (s : String) :
    ∃ k ns l, decodeLabel s = some (k, ns, l)
      ∧ (spaceFilename k ns l = s ++ ".json"
        ↔ (s.data.count ':' ≤ 1 ∧ (s.data.count ':' = 0 → s.data.count '=' ≤ 1))) := by
  by_cases hu : ':' ∈ s.data
  · obtain ⟨a, r, e, ha⟩ := exists_first_sep ':' s.data hu
    obtain ⟨p, ps, hpr, hc, hs⟩ := decodeLabel_first_sep s ':' a r e ha
    refine ⟨TypeUser, ⟨a⟩, ⟨p⟩, ?_, ?_⟩
    · simp only [decodeLabel, filenameSeparatorUser, hc, hs, if_true]
    · have hf : spaceFilename TypeUser ⟨a⟩ ⟨p⟩
          = (String.mk a ++ String.singleton ':' ++ String.mk p) ++ ".json" := by
        simp [spaceFilename, filenameSeparatorUser]
      rw [hf, reencode_sep s ':' a p r e, hpr, e, count_first_sep ':' a r ha,
        ← List.count_eq_zero]
      omega
  · by_cases ho : '=' ∈ s.data
    · obtain ⟨a, r, e, ha⟩ := exists_first_sep '=' s.data ho
      obtain ⟨p, ps, hpr, hc, hs⟩ := decodeLabel_first_sep s '=' a r e ha
      have hn : stringsContains s ':' = false := by simp [stringsContains, hu]
      refine ⟨TypeOrganization, ⟨a⟩, ⟨p⟩, ?_, ?_⟩
      · simp only [decodeLabel, filenameSeparatorUser, filenameSeparatorOrganization, hn, hc, hs,
          if_true]
        simp
      · have hf : spaceFilename TypeOrganization ⟨a⟩ ⟨p⟩
            = (String.mk a ++ String.singleton '=' ++ String.mk p) ++ ".json" := by
          simp [spaceFilename, filenameSeparatorOrganization]
        have h0 : s.data.count ':' = 0 := List.count_eq_zero_of_not_mem hu
        rw [hf, reencode_sep s '=' a p r e, hpr, h0]
        rw [e, count_first_sep '=' a r ha, ← List.count_eq_zero]
        omega
    · refine ⟨TypeNone, "", s, decodeLabel_none s hu ho, ?_⟩
      have h0 : s.data.count ':' = 0 := List.count_eq_zero_of_not_mem hu
      have h1 : s.data.count '=' = 0 := List.count_eq_zero_of_not_mem ho
      have hf : spaceFilename TypeNone "" s = s ++ ".json" := by simp [spaceFilename]
      rw [hf, h0, h1]
      simp

/-- Counterexample to C17 as stated: the directory entry `a:b:c.json` has
extension `.json`; `LoadSpaces` decodes it to kind User, namespace `a`, label
`b`, and `spaceLoadFile` reads `a:b.json`, another file. -/
theorem loadSpaces_reencode_counterexample :
    filepathExt "a:b:c.json" = ".json"
      ∧ loadSpacesEntry "a:b:c.json" = some (some (TypeUser, "a", "b"))
      ∧ spaceFilename TypeUser "a" "b" = "a:b.json"
      ∧ spaceFilename TypeUser "a" "b" ≠ "a:b:c.json"
      ∧ spaceLoadFilePath resolveAt TypeUser "a" "b" ≠ resolveAt pathSpaces "a:b:c.json" := by
  decide

/-- C17, amended. `LoadSpaces` reads the file it scanned for the names the
encoding produces: every directory entry name with extension `.json` is
decoded to some kind, namespace and label, and re-encoding them with
`resolveSpaceFile` gives back the entry's own file name exactly when the name
without its extension holds at most one `:` and, if it holds no `:`, at most
one `=`. -/
theorem loadSpaces_reencode_iff (resolve : String → String → String) (name : String)
    (hext : filepathExt name = ".json") :
    ∃ k ns l, loadSpacesEntry name = some (some (k, ns, l))
      ∧ (spaceFilename k ns l = name
        ↔ ((entryLabel name).data.count ':' ≤ 1
          ∧ ((entryLabel name).data.count ':' = 0 → (entryLabel name).data.count '=' ≤ 1)))
      ∧ (spaceFilename k ns l = name →
          spaceLoadFilePath resolve k ns l = resolve pathSpaces name) := by
  have hname := name_eq_label_json name hext
  obtain ⟨k, ns, l, hd, hiff⟩ := reencode_label (entryLabel name)
  refine ⟨k, ns, l, ?_, ?_, ?_⟩
  · rw [hname, loadSpacesEntry_json, hd]
  · rw [← hname] at hiff
    exact hiff
  · intro h
    unfold spaceLoadFilePath resolveSpaceFile
    rw [h]

/-- Witness of C17, amended: the directory entry `bob:my-space.json`. -/
theorem loadSpaces_reencode_iff_witness :
    ∃ k ns l, loadSpacesEntry "bob:my-space.json" = some (some (k, ns, l))
      ∧ (spaceFilename k ns l = "bob:my-space.json"
        ↔ ((entryLabel "bob:my-space.json").data.count ':' ≤ 1
          ∧ ((entryLabel "bob:my-space.json").data.count ':' = 0 →
            (entryLabel "bob:my-space.json").data.count '=' ≤ 1)))
      ∧ (spaceFilename k ns l = "bob:my-space.json" →
          spaceLoadFilePath resolveAt k ns l = resolveAt pathSpaces "bob:my-space.json") :=
  loadSpaces_reencode_iff resolveAt "bob:my-space.json" (by decide)

/-! ### Input checks -/

theorem inRanges_validChar (c : Char) :
    inRanges [('a', 'z'), ('0', '9'), ('-', '-')] c = validChar c := by
  have h : (decide ('-' ≤ c) && decide (c ≤ '-')) = decide (c = '-') := by
    by_cases hc : c = '-'
    · subst hc; decide
    · have : ¬ ('-' ≤ c ∧ c ≤ '-') := fun ⟨h1, h2⟩ => hc (le_antisymm h2 h1)
      simp only [hc, decide_False]
      by_cases h1 : '-' ≤ c
      · have h2 : ¬ c ≤ '-' := fun h2 => this ⟨h1, h2⟩
        simp [h1, h2]
      · simp [h1]
  simp only [inRanges, List.any_cons, List.any_nil, Bool.or_false, h, validChar, Bool.or_assoc]

theorem starIter_nil (f : List Nat → List Nat) (hf : f [] = []) (n : Nat) :
    starIter f n [] = [] := by
  induction n with
  | zero => rfl
  | succ n ih => simp [starIter, hf, ih]

theorem classEnds_single (text : List Char) (ranges : List (Char × Char)) (q : Nat) :
    (Regexp.charClass ranges).ends text [q]
      = if ∃ c, text[q]? = some c ∧ inRanges ranges c = true then [q + 1] else [] := by
  simp only [Regexp.ends, List.filterMap_cons, List.filterMap_nil]
  cases h : text[q]? with
  | none => simp
  | some c =>
    by_cases hc : inRanges ranges c = true
    · simp [hc]
    · simp [hc]

theorem starIter_class_mem (text : List Char) (ranges : List (Char × Char)) (n q p : Nat) :
    p ∈ starIter (fun qs => (Regexp.charClass ranges).ends text qs) n [q]
      ↔ q ≤ p ∧ p ≤ q + n
        ∧ ∀ j, q ≤ j → j < p → ∃ c, text[j]? = some c ∧ inRanges ranges c = true := by
  induction n generalizing q with
  | zero =>
    simp only [starIter, List.mem_singleton, Nat.add_zero]
    constructor
    · rintro rfl
      exact ⟨le_refl _, le_refl _, fun j h1 h2 => absurd h2 (by omega)⟩
    · rintro ⟨h1, h2, _⟩
      omega
  | succ n ih =>
    simp only [starIter, List.mem_append, List.mem_singleton, classEnds_single]
    by_cases hv : ∃ c, text[q]? = some c ∧ inRanges ranges c = true
    · rw [if_pos hv, ih]
      constructor
      · rintro (rfl | ⟨h1, h2, h3⟩)
        · exact ⟨le_refl _, by omega, fun j h1 h2 => absurd h2 (by omega)⟩
        · refine ⟨by omega, by omega, fun j hj1 hj2 => ?_⟩
          by_cases hq : j = q
          · subst hq; exact hv
          · exact h3 j (by omega) hj2
      · rintro ⟨h1, h2, h3⟩
        by_cases hq : p = q
        · exact Or.inl hq
        · exact Or.inr ⟨by omega, by omega, fun j hj1 hj2 => h3 j (by omega) hj2⟩
    · rw [if_neg hv, starIter_nil _ (by simp [Regexp.ends])]
      simp only [List.not_mem_nil, or_false]
      constructor
      · rintro rfl
        exact ⟨le_refl _, by omega, fun j h1 h2 => absurd h2 (by omega)⟩
      · rintro ⟨h1, h2, h3⟩
        by_contra hne
        exact hv (h3 q (le_refl _) (by omega))

theorem validChars_ends (text : List Char) (i : Nat) :
    (validCharsRegexp.ends text [i]).isEmpty = false
      ↔ i = 0 ∧ ∀ c ∈ text, validChar c = true := by
  have hne : ∀ l : List Nat, l.isEmpty = false ↔ ∃ p, p ∈ l := by
    intro l
    cases l with
    | nil => simp
    | cons x xs => simp
  rw [hne]
  simp only [validCharsRegexp, Regexp.ends, List.mem_filter, decide_eq_true_eq]
  by_cases hi : i = 0
  · subst hi
    simp only [List.filter_cons, decide_True, if_true, List.filter_nil, true_and]
    constructor
    · rintro ⟨p, hp, rfl⟩
      obtain ⟨_, _, h3⟩ := (starIter_class_mem text _ _ 0 _).1 hp
      intro c hc
      obtain ⟨j, hj, rfl⟩ := List.mem_iff_getElem.1 hc
      obtain ⟨c2, hc2, hv⟩ := h3 j (Nat.zero_le _) hj
      rw [List.getElem?_eq_getElem hj] at hc2
      cases hc2
      rw [← inRanges_validChar]
      exact hv
    · intro h
      refine ⟨text.length, (starIter_class_mem text _ _ 0 _).2 ⟨Nat.zero_le _, by omega, ?_⟩, rfl⟩
      intro j _ hj
      refine ⟨text[j], List.getElem?_eq_getElem hj, ?_⟩
      rw [inRanges_validChar]
      exact h _ (List.getElem_mem hj)
  · simp only [List.filter_cons, hi, decide_False, List.filter_nil, false_and, iff_false,
      Bool.false_eq_true, if_false]
    rw [starIter_nil _ (by simp)]
    simp

theorem validChar_not_upper {c : Char} (hv : validChar c = true) (hu : c.isUpper = true) :
    False := by
  simp only [Char.isUpper, Bool.and_eq_true, decide_eq_true_eq] at hu
  have h1 : 'A' ≤ c := hu.1
  have h2 : c ≤ 'Z' := hu.2
  simp only [validChar, Bool.or_eq_true, Bool.and_eq_true, decide_eq_true_eq] at hv
  rcases hv with (⟨h3, _⟩ | ⟨_, h4⟩) | h5
  · exact absurd (le_trans h3 h2) (by decide)
  · exact absurd (le_trans h1 h4) (by decide)
  · subst h5; exact absurd h1 (by decide)

/-- C15. Label charset: `CheckValidChars(s)` is true if and only if every
character of `s` is a lowercase letter `a-z`, a digit `0-9` or a hyphen; so a
string that holds `@`, `:`, `/`, `=`, an uppercase letter, a blank or a
newline is rejected. -/
theorem checkValidChars_iff (s : String) :
    (CheckValidChars s = true ↔ ∀ c ∈ s.data, validChar c = true)
      ∧ (∀ c ∈ s.data, (c = '@' ∨ c = ':' ∨ c = '/' ∨ c = '=' ∨ c.isUpper = true
            ∨ c.isWhitespace = true) → CheckValidChars s = false) := by
  have hiff : CheckValidChars s = true ↔ ∀ c ∈ s.data, validChar c = true := by
    unfold CheckValidChars Regexp.MatchString
    simp only [List.any_eq_true, List.mem_range, Bool.not_eq_true', validChars_ends]
    constructor
    · rintro ⟨i, _, _, h⟩
      exact h
    · intro h
      exact ⟨0, by omega, rfl, h⟩
  refine ⟨hiff, ?_⟩
  intro c hc hbad
  cases hcv : CheckValidChars s with
  | false => rfl
  | true =>
    exfalso
    have hv := (hiff.1 hcv) c hc
    rcases hbad with h | h | h | h | h | h
    · subst h; revert hv; decide
    · subst h; revert hv; decide
    · subst h; revert hv; decide
    · subst h; revert hv; decide
    · exact validChar_not_upper hv h
    · simp only [Char.isWhitespace, Bool.or_eq_true, decide_eq_true_eq] at h
      rcases h with ((h | h) | h) | h <;> (subst h; revert hv; decide)

/-! ### The cloud controller of package `cli` -/

theorem attempts_append (xs ys : List Event) :
    attempts (xs ++ ys) = attempts xs ++ attempts ys := by
  induction xs with
  | nil => rfl
  | cons e rest ih => cases e <;> simp [attempts, ih]

theorem persist_attempts (resolve : String → String → String) (w : World) (ptr : Nat) :
    attempts (w.Persist resolve ptr).out = attempts w.out := by
  unfold World.Persist
  cases w.load ptr with
  | none => rfl
  | some space => simp [attempts_append, attempts]

theorem saveFrom_attempts (resolve : String → String → String) (n ptr : Nat) (w : World) :
    attempts (saveFrom resolve n ptr w).out = attempts w.out := by
  induction n generalizing ptr w with
  | zero => rfl
  | succ n ih => rw [saveFrom, ih, persist_attempts]

theorem save_attempts (resolve : String → String → String) (w : World) :
    attempts (Save resolve w).out = attempts w.out := saveFrom_attempts resolve _ _ w

theorem copyCommands_facts (ctrl : App.CLIController) (ptr : Nat) (commands : List Command)
    (w : World) (space : Space) (failures : Bool) :
    ∃ new : List (Command × Option String),
      attempts (App.copyCommands ctrl ptr commands w space failures).1.out
          = attempts w.out ++ new
        ∧ new.map Prod.fst = commands
        ∧ (App.copyCommands ctrl ptr commands w space failures).2
          = (failures || new.any fun a => a.2.isSome)
        ∧ storageSteps (App.copyCommands ctrl ptr commands w space failures).1.out
          = storageSteps w.out := by
  induction commands generalizing w space failures with
  | nil => exact ⟨[], by simp [App.copyCommands], rfl, by simp [App.copyCommands], rfl⟩
  | cons command rest ih =>
    unfold App.copyCommands
    cases hadd : ctrl.CommandAdd space command with
    | ok space2 =>
      obtain ⟨new, h1, h2, h3, h4⟩ :=
        ih ((w.store ptr space2).emit (.CommandAdd command none)) space2 failures
      refine ⟨(command, none) :: new, ?_, ?_, ?_, ?_⟩
      · simp only [h1, emit_out, store_out, attempts_append, attempts, List.append_assoc,
          List.singleton_append]
      · simp [h2]
      · simp [h3]
      · simp only [h4, emit_out, store_out, storageSteps_append, storageSteps,
          List.append_nil]
    | error err =>
      obtain ⟨new, h1, h2, h3, h4⟩ :=
        ih ((w.emit (.CommandAdd command (some err))).emit
          (.LogPrintf ("cloud: copy command: " ++ err))) space true
      refine ⟨(command, some err) :: new, ?_, ?_, ?_, ?_⟩
      · simp only [h1, emit_out, attempts_append, attempts, List.append_assoc,
          List.singleton_append, List.append_nil]
      · simp [h2]
      · simp [h3]
      · simp only [h4, emit_out, storageSteps_append, storageSteps, List.append_nil]

theorem copyAsk_facts (cmdSelector spaceSelector : Selector) (commands : List Command)
    (w : World) :
    attempts (App.copyAsk cmdSelector spaceSelector commands w).out = attempts w.out
      ∧ storageSteps (App.copyAsk cmdSelector spaceSelector commands w).out
        = storageSteps w.out := by
  unfold App.copyAsk
  split <;> simp [attempts_append, attempts, storageSteps_append, storageSteps]

theorem addInOrder_commands (CommandAdd : Space → Command → Except String Space)
    (space : Space) (commands : List Command) :
    (addInOrder CommandAdd space commands).1.map Prod.fst = commands := by
  induction commands generalizing space with
  | nil => rfl
  | cons command rest ih =>
    unfold addInOrder
    cases CommandAdd space command with
    | ok added => simp [ih]
    | error err => simp [ih]

theorem copyCommands_refines (ctrl : App.CLIController) (ptr : Nat) (commands : List Command)
    (w : World) (space : Space) (failures : Bool)
    (hptr : w.cbox.Spaces[ptr]? = some space) :
    attempts (App.copyCommands ctrl ptr commands w space failures).1.out
        = attempts w.out ++ (addInOrder ctrl.CommandAdd space commands).1
      ∧ (App.copyCommands ctrl ptr commands w space failures).2
        = (failures || (addInOrder ctrl.CommandAdd space commands).1.any fun a => a.2.isSome)
      ∧ (App.copyCommands ctrl ptr commands w space failures).1.cbox.Spaces[ptr]?
        = some (addInOrder ctrl.CommandAdd space commands).2 := by
  have hlt : ptr < w.cbox.Spaces.length := by
    by_contra hc
    rw [List.getElem?_eq_none (by omega)] at hptr
    exact Option.noConfusion hptr
  induction commands generalizing w space failures with
  | nil => exact ⟨by simp [App.copyCommands, addInOrder], by simp [App.copyCommands, addInOrder],
      by simpa [App.copyCommands, addInOrder] using hptr⟩
  | cons command rest ih =>
    unfold App.copyCommands addInOrder
    cases hadd : ctrl.CommandAdd space command with
    | ok added =>
      obtain ⟨h1, h2, h3⟩ :=
        ih ((w.store ptr added).emit (.CommandAdd command none)) added failures
          (by simp [List.getElem?_set_self, hlt]) (by simpa using hlt)
      refine ⟨?_, ?_, ?_⟩
      · simp only [h1, emit_out, store_out, attempts_append, attempts, List.append_assoc,
          List.singleton_append]
      · simp [h2]
      · simp only [h3]
    | error err =>
      obtain ⟨h1, h2, h3⟩ :=
        ih ((w.emit (.CommandAdd command (some err))).emit
          (.LogPrintf ("cloud: copy command: " ++ err))) space true
          (by simpa using hptr) (by simpa using hlt)
      refine ⟨?_, ?_, ?_⟩
      · simp only [h1, emit_out, attempts_append, attempts, List.append_assoc,
          List.singleton_append, List.append_nil]
      · simp [h2]
      · simp only [h3]

theorem persist_write_mem (resolve : String → String → String) (w : World) (ptr : Nat)
    (space : Space) (h : w.cbox.Spaces[ptr]? = some space) :
    Event.WriteFile (persistFile resolve space) (persistRewrite space)
      ∈ (w.Persist resolve ptr).out := by
  unfold World.Persist World.load
  rw [List.get?_eq_getElem?, h]
  simp [persist_fst, persistFile, persistRewrite]

theorem saveFrom_write_mem (resolve : String → String → String) (n ptr : Nat) (w : World)
    (i : Nat) (space : Space) (h1 : ptr ≤ i) (h2 : i < ptr + n)
    (h : w.cbox.Spaces[i]? = some space) :
    Event.WriteFile (persistFile resolve space) (persistRewrite space)
      ∈ (saveFrom resolve n ptr w).out := by
  induction n generalizing ptr w with
  | zero => omega
  | succ n ih =>
    rw [saveFrom]
    by_cases hi : i = ptr
    · subst hi
      exact saveFrom_out_mem resolve n _ _ _ (persist_write_mem resolve w i space h)
    · apply ih (ptr + 1) (w.Persist resolve ptr) (by omega) (by omega)
      rw [persist_spaces_getElem, if_neg hi]
      exact h

theorem save_write_mem (resolve : String → String → String) (w : World) (i : Nat)
    (space : Space) (h : w.cbox.Spaces[i]? = some space) :
    Event.WriteFile (persistFile resolve space) (persistRewrite space)
      ∈ (Save resolve w).out := by
  have hlt : i < w.cbox.Spaces.length := by
    by_contra hc
    rw [List.getElem?_eq_none (by omega)] at h
    exact Option.noConfusion h
  exact saveFrom_write_mem resolve _ 0 w i space (Nat.zero_le _) (by omega) h

/-- C12. Batch copy aggregates failures: for every list of remote commands and
every `Space.CommandAdd`, a confirmed `CloudCommandCopy` returns, and
* its calls of `CommandAdd`, with the errors they return, are those of the
  batch `addInOrder`: `ctrl.CommandAdd` on every command, in list order, on the
  space as the earlier successes left it, whatever the earlier calls returned;
* the loop writes no file; the world at the end is the one the loop leaves,
  saved once, followed by one status;
* the space of the box and the file written for it hold the successes: they
  are the space `addInOrder` ends with, as `Persist` rewrites it;
* the status is the failure message exactly when at least one `ctrl.CommandAdd`
  of the batch returned an error, and the success message otherwise. -/
theorem copy_aggregates_failures (ctrl : App.CLIController) (w : World) (arg0 arg1 : String)
    (cmdSelector spaceSelector : Selector) (ptr : Nat) (L : Space) (cloud : Cloud)
    (commands : List Command)
    (hout : w.out = [])
    (hcmd : ctrl.ParseSelectorForCloudCommand arg0 = .ok cmdSelector)
    (hspace : ctrl.ParseSelectorMandatorySpace arg1 = .ok spaceSelector)
    (hfind : findSpaceIndex (ctrl.labelled spaceSelector.Space) w.cbox.Spaces = some (ptr, L))
    (hclient : ctrl.CloudClient = .ok cloud)
    (hlist : cloud.CommandList cmdSelector = .ok commands) :
    (ctrl.CloudCommandCopy true w arg0 arg1).outcome = .returned
      ∧ attempts (ctrl.CloudCommandCopy true w arg0 arg1).world.out
        = (addInOrder ctrl.CommandAdd L commands).1
      ∧ (attempts (ctrl.CloudCommandCopy true w arg0 arg1).world.out).map Prod.fst = commands
      ∧ storageSteps (App.copyCommands ctrl ptr commands
          (App.copyAsk cmdSelector spaceSelector commands
            (w.emit (.PrintAction "Copying cloud commands"))) L false).1.out = []
      ∧ (ctrl.CloudCommandCopy true w arg0 arg1).world
        = (Save ctrl.resolve (App.copyCommands ctrl ptr commands
            (App.copyAsk cmdSelector spaceSelector commands
              (w.emit (.PrintAction "Copying cloud commands"))) L false).1).emit
          (if ((addInOrder ctrl.CommandAdd L commands).1.any fun a => a.2.isSome) = true
            then .PrintError "Some commands could not be stored"
            else .PrintSuccess "Commands copied successfully!")
      ∧ (ctrl.CloudCommandCopy true w arg0 arg1).world.load ptr
        = some (persistRewrite (addInOrder ctrl.CommandAdd L commands).2)
      ∧ Event.WriteFile (persistFile ctrl.resolve (addInOrder ctrl.CommandAdd L commands).2)
          (persistRewrite (addInOrder ctrl.CommandAdd L commands).2)
        ∈ (ctrl.CloudCommandCopy true w arg0 arg1).world.out := by
  have hL : w.cbox.Spaces[ptr]? = some L := (findSpaceIndex_some _ _ _ _ hfind).1
  have hask : (App.copyAsk cmdSelector spaceSelector commands
      (w.emit (.PrintAction "Copying cloud commands"))).cbox = w.cbox := by
    unfold App.copyAsk
    split <;> rfl
  obtain ⟨h1, h3, h5⟩ := copyCommands_refines ctrl ptr commands
    (App.copyAsk cmdSelector spaceSelector commands
      (w.emit (.PrintAction "Copying cloud commands"))) L false (by rw [hask]; exact hL)
  obtain ⟨_, _, _, _, h4⟩ := copyCommands_facts ctrl ptr commands
    (App.copyAsk cmdSelector spaceSelector commands
      (w.emit (.PrintAction "Copying cloud commands"))) L false
  obtain ⟨a1, a2⟩ := copyAsk_facts cmdSelector spaceSelector commands
    (w.emit (.PrintAction "Copying cloud commands"))
  have hnew : attempts (App.copyCommands ctrl ptr commands
      (App.copyAsk cmdSelector spaceSelector commands
        (w.emit (.PrintAction "Copying cloud commands"))) L false).1.out
      = (addInOrder ctrl.CommandAdd L commands).1 := by
    rw [h1, a1]
    simp [hout, attempts]
  have hrun : ctrl.CloudCommandCopy true w arg0 arg1
      = App.copyConfirmed ctrl true ptr L commands
          (App.copyAsk cmdSelector spaceSelector commands
            (w.emit (.PrintAction "Copying cloud commands"))) := by
    unfold App.CLIController.CloudCommandCopy
    simp only [hcmd, hspace, emit_cbox, hfind, hclient, hlist]
  rw [hrun]
  unfold App.copyConfirmed
  simp only [if_true]
  generalize App.copyCommands ctrl ptr commands
    (App.copyAsk cmdSelector spaceSelector commands
      (w.emit (.PrintAction "Copying cloud commands"))) L false = r at h3 h4 h5 hnew
  have hflag : r.2 = (addInOrder ctrl.CommandAdd L commands).1.any fun a => a.2.isSome := by
    simpa using h3
  have hsteps : storageSteps r.1.out = [] := by
    rw [h4, a2]
    simp [hout, storageSteps]
  have hload : ∀ e, ((Save ctrl.resolve r.1).emit e).load ptr
      = some (persistRewrite (addInOrder ctrl.CommandAdd L commands).2) := by
    intro e
    unfold World.load
    rw [List.get?_eq_getElem?, emit_cbox, save_spaces_getElem, h5]
    rfl
  have hwrite : ∀ e, Event.WriteFile
      (persistFile ctrl.resolve (addInOrder ctrl.CommandAdd L commands).2)
      (persistRewrite (addInOrder ctrl.CommandAdd L commands).2)
      ∈ ((Save ctrl.resolve r.1).emit e).out := by
    intro e
    rw [emit_out]
    exact List.mem_append_left _ (save_write_mem ctrl.resolve r.1 ptr _ h5)
  have hatt : ∀ e, attempts [e] = [] →
      attempts ((Save ctrl.resolve r.1).emit e).out
        = (addInOrder ctrl.CommandAdd L commands).1 := by
    intro e he
    rw [emit_out, attempts_append, save_attempts, hnew, he, List.append_nil]
  rw [← hflag]
  cases hr2 : r.2 with
  | true =>
    simp only [if_true, World.done]
    refine ⟨trivial, hatt (.PrintError "Some commands could not be stored") rfl, ?_, hsteps,
      trivial, hload _, hwrite _⟩
    rw [hatt (.PrintError "Some commands could not be stored") rfl, addInOrder_commands]
  | false =>
    simp only [Bool.false_eq_true, if_false, World.done]
    refine ⟨trivial, hatt (.PrintSuccess "Commands copied successfully!") rfl, ?_, hsteps,
      trivial, hload _, hwrite _⟩
    rw [hatt (.PrintSuccess "Commands copied successfully!") rfl, addInOrder_commands]

/-- Witness of C12: the remote commands `deploy`, `build`, `build` copied into
a space that already holds `deploy`. The first and the third `CommandAdd` fail,
the second succeeds, and the failure message ends the run. -/
theorem copy_aggregates_failures_witness :
    ((sampleApp [sampleCommand "deploy" [], sampleCommand "build" [],
          sampleCommand "build" []]).CloudCommandCopy true
        (sampleWorld [sampleSpace "scripts" [sampleCommand "deploy" []]]) "x@theirs"
        "scripts").outcome = .returned
      ∧ attempts ((sampleApp [sampleCommand "deploy" [], sampleCommand "build" [],
            sampleCommand "build" []]).CloudCommandCopy true
          (sampleWorld [sampleSpace "scripts" [sampleCommand "deploy" []]]) "x@theirs"
          "scripts").world.out
        = (addInOrder commandAddUnique (sampleSpace "scripts" [sampleCommand "deploy" []])
            [sampleCommand "deploy" [], sampleCommand "build" [], sampleCommand "build" []]).1
      ∧ (addInOrder commandAddUnique (sampleSpace "scripts" [sampleCommand "deploy" []])
          [sampleCommand "deploy" [], sampleCommand "build" [], sampleCommand "build" []]).1
        = [(sampleCommand "deploy" [], some "command deploy already exists"),
            (sampleCommand "build" [], none),
            (sampleCommand "build" [], some "command build already exists")] :=
  have h := copy_aggregates_failures
    (sampleApp [sampleCommand "deploy" [], sampleCommand "build" [], sampleCommand "build" []])
    (sampleWorld [sampleSpace "scripts" [sampleCommand "deploy" []]]) "x@theirs" "scripts"
    { NamespaceType := TypeNone, Namespace := "", Space := "theirs", Item := "x" }
    { NamespaceType := TypeNone, Namespace := "", Space := "scripts", Item := "" } 0
    (sampleSpace "scripts" [sampleCommand "deploy" []])
    (sampleCloud [sampleCommand "deploy" [], sampleCommand "build" [], sampleCommand "build" []])
    [sampleCommand "deploy" [], sampleCommand "build" [], sampleCommand "build" []]
    rfl rfl rfl rfl rfl rfl
  ⟨h.1, h.2.1, by decide⟩

/-- C13, the run at the failing input: the remote service returns no command
for `x@theirs` and the user answers yes. The error naming the selector is
shown, and then the run goes on: it asks for confirmation, saves the box
(one file is written) and ends by reporting success. -/
theorem copy_not_found_goes_on :
    ((sampleApp []).CloudCommandCopy true
        (sampleWorld [sampleSpace "scripts" [sampleCommand "deploy" []]]) "x@theirs"
        "scripts").outcome = .returned
      ∧ Event.PrintError "Command 'x@theirs' not found"
        ∈ ((sampleApp []).CloudCommandCopy true
          (sampleWorld [sampleSpace "scripts" [sampleCommand "deploy" []]]) "x@theirs"
          "scripts").world.out
      ∧ Event.Confirm "Copy these commands into scripts?"
        ∈ ((sampleApp []).CloudCommandCopy true
          (sampleWorld [sampleSpace "scripts" [sampleCommand "deploy" []]]) "x@theirs"
          "scripts").world.out
      ∧ storageStepFiles ((sampleApp []).CloudCommandCopy true
          (sampleWorld [sampleSpace "scripts" [sampleCommand "deploy" []]]) "x@theirs"
          "scripts").world.out = [("write", "/cbox/spaces/scripts.json")]
      ∧ ((sampleApp []).CloudCommandCopy true
          (sampleWorld [sampleSpace "scripts" [sampleCommand "deploy" []]]) "x@theirs"
          "scripts").world.out.getLast?
        = some (.PrintSuccess "Commands copied successfully!") := by
  decide

/-- Witness of C15: `my-space` is accepted, `my:space` is rejected. -/
theorem checkValidChars_iff_witness :
    CheckValidChars "my-space" = true ∧ CheckValidChars "my:space" = false :=
  ⟨(checkValidChars_iff "my-space").1.2 (by decide),
    (checkValidChars_iff "my:space").2 ':' (by decide) (by decide)⟩

end Cbox
